import Mathlib

/-!
The struct parser of godoc2puml (`parser/parser.go`).

A shallow embedding of the type-shape analysis of `parser/parser.go`:
`elementType` (the signature resolver), `isPrimitive` (the classification
policy), `parseFields` (the member walk), `parseFile` (the declaration walk)
and `ParsePackage` (the entry point), followed by the properties proved about
them.

Conventions of the embedding
* A Go `string` is a Lean `String`, its characters the code points of the Go
  string (the names and signatures at hand are valid UTF-8); `+` is `++`.
* A panic is `none` in `Option`; a normal return is `some`.
* An `ast.Expr` interface value is an `ast.Expr`; the nil interface is
  `ast.Expr.nil`.  A `*ast.FieldList` is an `Option`: `none` is the nil
  pointer, `some l` a list whose `List` field is `l`.
* A `*ast.Ident` that names something (a member name, the selected name of a
  selector, the name of a type specification) is the `String` that its
  `String()` method returns.
* A Go map is the list of its entries in the order in which the `range` loop
  of one run visits them; an `error` is the `String` of its message.
-/

namespace godoc2puml

namespace strings

/-- Go's `strings.ContainsAny(s, chars)`: whether any code point of `chars`
occurs in `s`. -/
def ContainsAny (s chars : String) : Bool :=
  s.data.any (fun c => chars.data.contains c)

end strings

namespace ast

/-- The `ast.Field` of `go/ast`: one member of a field list, with the names
it declares (`Names`, empty for an embedded member) and its type (`Type`).
The type of expressions is a parameter because expressions contain field
lists. -/
structure Field (E : Type) where
  Names : List String
  Typ : E

/-- The `ast.Expr` values of `go/ast` that can stand where a type is expected,
one constructor per node shape.  `Dir` of a channel is the `ast.ChanDir`
integer.  The shapes after `ChanType` are the ones `elementType` has no case
for; `Other` stands for every remaining expression node (call, index, binary
expression and so on), identified by the name of its Go type. -/
inductive Expr where
  | nil : Expr
  | Ident (Name : String) : Expr
  | ArrayType (Len : Expr) (Elt : Expr) : Expr
  | StarExpr (X : Expr) : Expr
  | SelectorExpr (X : Expr) (Sel : String) : Expr
  | FuncType (Params : Option (List (Field Expr))) (Results : Option (List (Field Expr))) : Expr
  | MapType (Key : Expr) (Value : Expr) : Expr
  | InterfaceType (Methods : Option (List (Field Expr))) : Expr
  | StructType (Fields : Option (List (Field Expr))) : Expr
  | ChanType (Dir : Nat) (Value : Expr) : Expr
  | Ellipsis (Elt : Expr) : Expr
  | BasicLit (Value : String) : Expr
  | ParenExpr (X : Expr) : Expr
  | BadExpr : Expr
  | Other (kind : String) : Expr

/-- The `*ast.FieldList` of `go/ast`: `none` is the nil pointer, `some l` is a
field list whose `List` is `l`. -/
abbrev FieldList : Type := Option (List (Field Expr))

/-- The constant `ast.SEND` (`1 << iota`, first of the `ChanDir` block). -/
def SEND : Nat := 1

/-- The constant `ast.RECV`. -/
def RECV : Nat := 2

end ast

/-- Modelled from the spec: the relation kind of the diagram model (package
`godoc2puml/ast`, not part of the sources at hand).  The spec names the two
kinds `Composition` and `Association`; `unset` is the zero value that the
`RelType` of a freshly built `Relation` literal holds before it is assigned. -/
inductive RelationType where
  | unset : RelationType
  | Composition : RelationType
  | Association : RelationType
  deriving DecidableEq, Repr

/-- Modelled from the spec: the `Field` of the diagram model (package
`godoc2puml/ast`): name, type-signature string and multiplicity string. -/
structure Field where
  Name : String
  Typ : String
  Multiplicity : String
  deriving DecidableEq, Repr

/-- Modelled from the spec: the `Relation` of the diagram model (package
`godoc2puml/ast`): target signature, label, relation kind and multiplicity. -/
structure Relation where
  Target : String
  Label : String
  RelType : RelationType
  Multiplicity : String
  deriving DecidableEq, Repr

/-- Modelled from the spec: the `Class` of the diagram model (package
`godoc2puml/ast`): name, ordered fields and ordered relations. -/
structure Class where
  Name : String
  Fields : List Field
  Relations : List Relation
  deriving DecidableEq, Repr

mutual

/-- The function `elementType` of `parser.go` on an expression node (the cases
of the type switch other than `*ast.FieldList`).  The default branch panics. -/
def elementType : ast.Expr → Option String
  | .nil => some ""
  | .Ident name => some name
  | .ArrayType _ elt => elementType elt
  | .StarExpr x => elementType x
  | .SelectorExpr x sel => do
      let s ← elementType x
      pure (s ++ "." ++ sel)
  | .FuncType params results => do
      let p ← elementTypeFieldList params
      let r ← elementTypeFieldList results
      pure ("func " ++ p ++ r)
  | .MapType key value => do
      let k ← elementType key
      let v ← elementType value
      pure ("map[" ++ k ++ "]" ++ v)
  | .InterfaceType methods => do
      let m ← elementTypeFieldList methods
      pure ("interface \x7b" ++ m ++ "\x7d")
  | .StructType fields => do
      let f ← elementTypeFieldList fields
      pure ("struct \x7b" ++ f ++ "\x7d")
  | .ChanType dir value =>
      if dir = ast.SEND then do
        let v ← elementType value
        pure ("chan out " ++ v)
      else if dir = ast.RECV then do
        let v ← elementType value
        pure ("chan in " ++ v)
      else do
        let v ← elementType value
        pure ("chan both " ++ v)
  | .Ellipsis _ => none
  | .BasicLit _ => none
  | .ParenExpr _ => none
  | .BadExpr => none
  | .Other _ => none

/-- The case `*ast.FieldList` of `elementType`: the empty string for the nil
pointer, else the buffer filled by the loop over `expr.List`. -/
def elementTypeFieldList : ast.FieldList → Option String
  | none => some ""
  | some list => elementTypeList list

/-- The loop `for _, field := range expr.List` of the `*ast.FieldList` case:
writes `elementType(field.Type)` of each member to the buffer, in order. -/
def elementTypeList : List (ast.Field ast.Expr) → Option String
  | [] => some ""
  | field :: rest => do
      let s ← elementType field.Typ
      let b ← elementTypeList rest
      pure (s ++ b)

end

/-- The function `isPrimitive` of `parser.go`: the name switch, then the
`strings.ContainsAny(name, " [")` switch. -/
def isPrimitive (name : String) : Bool :=
  if name ∈ ["bool", "int", "uint", "byte", "float",
      "uint8", "int8",
      "uint16", "int16",
      "uint32", "int32",
      "uint64", "int64",
      "string"] then true
  else if strings.ContainsAny name " [" then true
  else false

/-- The test `_, ok := field.Type.(*ast.ArrayType)` of `parseFields`. -/
def isArrayType : ast.Expr → Bool
  | .ArrayType _ _ => true
  | _ => false

/-- The loop `for _, name := range field.Names` of the primitive branch of
`parseFields`: sets `f.Name` and appends the current `f`. -/
def appendFields : Field → List Field → List String → Field × List Field
  | f, fields, [] => (f, fields)
  | f, fields, name :: names =>
      let f1 : Field := { f with Name := name }
      appendFields f1 (fields ++ [f1]) names

/-- The loop `for _, name := range field.Names` of the default branch of
`parseFields`: sets `rel.Label` and `rel.RelType` and appends the current
`rel`. -/
def appendRelations : Relation → List Relation → List String → Relation × List Relation
  | rel, relations, [] => (rel, relations)
  | rel, relations, name :: names =>
      let rel1 : Relation := { rel with Label := name }
      let rel2 : Relation := { rel1 with RelType := RelationType.Association }
      appendRelations rel2 (relations ++ [rel2]) names

/-- The body of the loop `for _, field := range fields.List` of `parseFields`,
run on the class `cl` for the member `field`. -/
def parseFieldsBody (cl : Class) (field : ast.Field ast.Expr) : Option Class := do
  let multiplicity := if isArrayType field.Typ then "0..*" else ""
  let elementType ← elementType field.Typ
  if isPrimitive elementType then
    let f : Field := { Name := "", Typ := elementType, Multiplicity := multiplicity }
    let cl1 : Class :=
      if field.Names.length = 0 then { cl with Fields := cl.Fields ++ [f] } else cl
    pure { cl1 with Fields := (appendFields f cl1.Fields field.Names).2 }
  else
    let rel : Relation :=
      { Target := elementType, Label := "", RelType := RelationType.unset,
        Multiplicity := multiplicity }
    let rel1 : Relation :=
      if field.Names.length = 0 then { rel with RelType := RelationType.Composition } else rel
    let cl1 : Class :=
      if field.Names.length = 0 then { cl with Relations := cl.Relations ++ [rel1] } else cl
    pure { cl1 with Relations := (appendRelations rel1 cl1.Relations field.Names).2 }

/-- The function `parseFields` of `parser.go`, on the class `cl` and the member
list `fields.List`: the loop body for each member in order; a panic of
`elementType` ends the walk. -/
def parseFields (cl : Class) : List (ast.Field ast.Expr) → Option Class
  | [] => some cl
  | field :: rest => do
      let cl1 ← parseFieldsBody cl field
      parseFields cl1 rest

/-- The multiplicity string that `parseFields` computes for a member type
before it resolves the signature. -/
def multiplicityOf (t : ast.Expr) : String :=
  if isArrayType t then "0..*" else ""

/-- Removes the array and pointer wrappers around a type expression, down to
the first node that is neither (used to state properties; `parser.go` has no
such function). -/
def strip : ast.Expr → ast.Expr
  | .ArrayType _ elt => strip elt
  | .StarExpr x => strip x
  | t => t

/-- One array/slice or pointer wrapper around a type expression; an array
wrapper carries its length expression. -/
inductive Wrapper where
  | array (Len : ast.Expr) : Wrapper
  | pointer : Wrapper

/-- Puts the wrappers `ws` around `t`, the first of `ws` outermost. -/
def wrap : List Wrapper → ast.Expr → ast.Expr
  | [], t => t
  | Wrapper.array len :: ws, t => .ArrayType len (wrap ws t)
  | Wrapper.pointer :: ws, t => .StarExpr (wrap ws t)

/-- Whether a type expression is a map, function, inline interface, inline
struct or channel type. -/
def isComposite : ast.Expr → Bool
  | .FuncType _ _ => true
  | .MapType _ _ => true
  | .InterfaceType _ => true
  | .StructType _ => true
  | .ChanType _ _ => true
  | _ => false

/-- Whether a type expression is a bare identifier or a selector (qualified
name). -/
def isName : ast.Expr → Bool
  | .Ident _ => true
  | .SelectorExpr _ _ => true
  | _ => false

/-- The Fields that one member adds when its signature `sig` is primitive: one
without name for an embedded member, else one per name, in order. -/
def fieldsFor (names : List String) (sig m : String) : List Field :=
  if names = [] then [⟨"", sig, m⟩] else names.map (fun n => (⟨n, sig, m⟩ : Field))

/-- The Relations that one member adds when its signature `sig` is not
primitive: one Composition without label for an embedded member, else one
Association per name, in order. -/
def relationsFor (names : List String) (sig m : String) : List Relation :=
  if names = [] then [⟨sig, "", RelationType.Composition, m⟩]
  else names.map (fun n => (⟨sig, n, RelationType.Association, m⟩ : Relation))

namespace ast

/-- The `ast.Spec` values of `go/ast`: an import, a constant or variable
specification (with its declared type, nil when absent), or a type
specification `Name Type`. -/
inductive Spec where
  | ImportSpec (Path : String) : Spec
  | ValueSpec (Names : List String) (Typ : Expr) : Spec
  | TypeSpec (Name : String) (Typ : Expr) : Spec

mutual

/-- The `ast.Decl` values of `go/ast`: a bad declaration, a general
declaration (`import`, `const`, `type` or `var`, given by `Tok`) with its
specifications, or a function declaration with its type and body (`none` for
an absent body). -/
inductive Decl where
  | BadDecl : Decl
  | GenDecl (Tok : String) (Specs : List Spec) : Decl
  | FuncDecl (Name : String) (Typ : Expr) (Body : Option (List Stmt)) : Decl

/-- The statements of a function body, as far as they can hold declarations:
a declaration statement, or any other statement (identified by the name of its
Go type). -/
inductive Stmt where
  | DeclStmt (Decl : Decl) : Stmt
  | OtherStmt (kind : String) : Stmt

end

/-- The `ast.File` of `go/ast`: the top-level declarations of one file. -/
structure File where
  Decls : List Decl

/-- The `ast.Package` of `go/ast`: the map `Files` from file name to file,
given by its entries in the order in which a `range` loop visits them. -/
structure Package where
  Files : List (String × File)

end ast

namespace build

/-- The `build.Package` of `go/build`, as far as `ParsePackage` reads it. -/
structure Package where
  Dir : String

end build

/-- Modelled from the spec: the `Package` of the diagram model (package
`godoc2puml/ast`): qualified name and ordered classes. -/
structure Package where
  QualifiedName : String
  Classes : List Class
  deriving DecidableEq, Repr

/-- The loop `for _, spec := range gd.Specs` of `parseFile`: a type
specification whose type is a struct type gets a new class, filled by
`parseFields` and appended to `p.Classes`; every other specification is
skipped.  `parseFields` reads `fields.List`, so a nil `st.Fields` is a nil
dereference (a panic). -/
def parseFileSpecs (p : Package) : List ast.Spec → Option Package
  | [] => some p
  | .TypeSpec name (.StructType fields) :: rest => do
      let cl : Class := { Name := name, Fields := [], Relations := [] }
      let cl1 ← match fields with
        | none => none
        | some list => parseFields cl list
      parseFileSpecs { p with Classes := p.Classes ++ [cl1] } rest
  | _ :: rest => parseFileSpecs p rest

/-- The loop `for _, decl := range f.Decls` of `parseFile`: only general
declarations are looked into. -/
def parseFileDecls (p : Package) : List ast.Decl → Option Package
  | [] => some p
  | .GenDecl _ specs :: rest => do
      let p1 ← parseFileSpecs p specs
      parseFileDecls p1 rest
  | _ :: rest => parseFileDecls p rest

/-- The function `parseFile` of `parser.go`, returning the package that `p`
points to after the call; `none` when `elementType` panics on the way. -/
def parseFile (p : Package) (f : ast.File) : Option Package :=
  parseFileDecls p f.Decls

/-- The loop `for _, file := range pkg.Files` of `ParsePackage`, over the
entries of the map in the order in which this run visits them. -/
def rangeFiles (p : Package) : List (String × ast.File) → Option Package
  | [] => some p
  | (_, file) :: rest => do
      let p1 ← parseFile p file
      rangeFiles p1 rest

/-- The loop `for _, pkg := range pkgs` of `ParsePackage`, over the entries of
the map in the order in which this run visits them. -/
def rangePkgs (p : Package) : List (String × ast.Package) → Option Package
  | [] => some p
  | (_, pkg) :: rest => do
      let p1 ← rangeFiles p pkg.Files
      rangePkgs p1 rest

/-- The function `ParsePackage` of `parser.go`.  The two library calls are
parameters: `Import packagePath` is the pair that
`build.Import(packagePath, ".", build.FindOnly)` returns, `ParseDir dir` the
pair that `parser.ParseDir(fset, dir, filter, 0)` returns (an absent error is
`none`).  A Go map is the list of its entries in the order in which the
`range` loops of this run visit them; Go leaves that order open, so two runs
over one map may differ in it.  The result is the returned pair
`(*Package, error)`, or `none` when the call panics. -/
def ParsePackage (Import : String → build.Package × Option String)
    (ParseDir : String → List (String × ast.Package) × Option String)
    (packagePath : String) : Option (Option Package × Option String) :=
  let p : Package := { QualifiedName := packagePath, Classes := [] }
  match Import packagePath with
  | (_, some err) => some (none, some err)
  | (buildPkg, none) =>
    let dir := buildPkg.Dir
    match ParseDir dir with
    | (_, some err) => some (none, some err)
    | (pkgs, none) =>
      match rangePkgs p pkgs with
      | none => none
      | some p1 => some (some p1, none)

/-- The top-level struct type specifications of a file, in declaration order:
declaration by declaration and, inside a general declaration, spec by spec;
each with its name and its field list. -/
def structSpecs (f : ast.File) : List (String × ast.FieldList) :=
  f.Decls.flatMap (fun decl =>
    match decl with
    | .GenDecl _ specs => specs.filterMap (fun spec =>
        match spec with
        | .TypeSpec name (.StructType fields) => some (name, fields)
        | _ => none)
    | _ => [])

/-- The class that `parseFile` builds for one struct type specification
(`Class{Name: ts.Name.Name, ...}` filled by `parseFields`). -/
def classOf (s : String × ast.FieldList) : Option Class :=
  match s.2 with
  | none => none
  | some list => parseFields { Name := s.1, Fields := [], Relations := [] } list

/-- The classes of a list of struct type specifications, in order; `none` when
one of them makes `elementType` panic. -/
def classesOf : List (String × ast.FieldList) → Option (List Class)
  | [] => some []
  | s :: rest => do
      let cl ← classOf s
      let cls ← classesOf rest
      pure (cl :: cls)

/-- The files that a run of `ParsePackage` visits, in visiting order. -/
def visitedFiles (pkgs : List (String × ast.Package)) : List ast.File :=
  pkgs.flatMap (fun e => e.2.Files.map Prod.snd)

mutual

/-- Whether the recursion of `elementType` on an expression reaches a node of
a shape it has no case for (anything but nil, identifier, array, pointer,
selector, function, map, interface, struct and channel type). -/
def reachesUnknown : ast.Expr → Bool
  | .nil => false
  | .Ident _ => false
  | .ArrayType _ elt => reachesUnknown elt
  | .StarExpr x => reachesUnknown x
  | .SelectorExpr x _ => reachesUnknown x
  | .FuncType params results => reachesUnknownFieldList params || reachesUnknownFieldList results
  | .MapType key value => reachesUnknown key || reachesUnknown value
  | .InterfaceType methods => reachesUnknownFieldList methods
  | .StructType fields => reachesUnknownFieldList fields
  | .ChanType _ value => reachesUnknown value
  | .Ellipsis _ => true
  | .BasicLit _ => true
  | .ParenExpr _ => true
  | .BadExpr => true
  | .Other _ => true

/-- The same for a field list pointer: nil reaches nothing. -/
def reachesUnknownFieldList : ast.FieldList → Bool
  | none => false
  | some list => reachesUnknownList list

/-- The same for the members of a field list: only their types count. -/
def reachesUnknownList : List (ast.Field ast.Expr) → Bool
  | [] => false
  | field :: rest => reachesUnknown field.Typ || reachesUnknownList rest

end

/-- A sample file: an import; a grouped type declaration with the struct `A`,
the struct `E` without members, the interface `I` and the struct `B`, whose
member `in` has an inline struct type; a function `f` whose body declares the
struct `L`; and a variable `v` of an inline struct type. -/
def sampleFile : ast.File :=
  ⟨[ast.Decl.GenDecl "import" [ast.Spec.ImportSpec "fmt"],
    ast.Decl.GenDecl "type"
      [ast.Spec.TypeSpec "A" (ast.Expr.StructType (some [⟨["X"], ast.Expr.Ident "int"⟩])),
       ast.Spec.TypeSpec "E" (ast.Expr.StructType (some [])),
       ast.Spec.TypeSpec "I" (ast.Expr.InterfaceType (some [])),
       ast.Spec.TypeSpec "B" (ast.Expr.StructType (some
         [⟨["in"], ast.Expr.StructType (some [⟨["Y"], ast.Expr.Ident "int"⟩])⟩]))],
    ast.Decl.FuncDecl "f" (ast.Expr.FuncType (some []) none)
      (some [ast.Stmt.DeclStmt (ast.Decl.GenDecl "type"
        [ast.Spec.TypeSpec "L" (ast.Expr.StructType (some []))])]),
    ast.Decl.GenDecl "var" [ast.Spec.ValueSpec ["v"] (ast.Expr.StructType (some []))]]⟩

/-- A file that declares one struct `name` without members. -/
def structFile (name : String) : ast.File :=
  ⟨[ast.Decl.GenDecl "type" [ast.Spec.TypeSpec name (ast.Expr.StructType (some []))]]⟩

/-- A file that declares the struct `T` with the one member
`F func(args ...int)`, a function type with a variadic parameter. -/
def variadicFile : ast.File :=
  ⟨[ast.Decl.GenDecl "type" [ast.Spec.TypeSpec "T" (ast.Expr.StructType (some
    [⟨["F"], ast.Expr.FuncType
      (some [⟨["args"], ast.Expr.Ellipsis (ast.Expr.Ident "int")⟩]) none⟩]))]]⟩

/-! ## Lemmas on the walk -/

theorem fieldsFor_length (names : List String) (sig m : String) :
    (fieldsFor names sig m).length = max 1 names.length := by
  cases names <;> simp [fieldsFor]

theorem fieldsFor_ne_nil (names : List String) (sig m : String) :
    fieldsFor names sig m ≠ [] := by
  cases names <;> simp [fieldsFor]

theorem fieldsFor_mem (names : List String) (sig m : String) (f : Field)
    (hf : f ∈ fieldsFor names sig m) : f.Typ = sig ∧ f.Multiplicity = m := by
  cases names with
  | nil =>
    simp only [fieldsFor, if_true, List.mem_singleton] at hf
    subst hf
    exact ⟨rfl, rfl⟩
  | cons n ns =>
    simp only [fieldsFor, reduceCtorEq, if_false, List.mem_map] at hf
    obtain ⟨a, -, rfl⟩ := hf
    exact ⟨rfl, rfl⟩

theorem relationsFor_length (names : List String) (sig m : String) :
    (relationsFor names sig m).length = max 1 names.length := by
  cases names <;> simp [relationsFor]

theorem relationsFor_ne_nil (names : List String) (sig m : String) :
    relationsFor names sig m ≠ [] := by
  cases names <;> simp [relationsFor]

theorem relationsFor_mem (names : List String) (sig m : String) (r : Relation)
    (hr : r ∈ relationsFor names sig m) : r.Target = sig ∧ r.Multiplicity = m := by
  cases names with
  | nil =>
    simp only [relationsFor, if_true, List.mem_singleton] at hr
    subst hr
    exact ⟨rfl, rfl⟩
  | cons n ns =>
    simp only [relationsFor, reduceCtorEq, if_false, List.mem_map] at hr
    obtain ⟨a, -, rfl⟩ := hr
    exact ⟨rfl, rfl⟩

theorem appendFields_snd (f : Field) (fields : List Field) (names : List String) :
    (appendFields f fields names).2 =
      fields ++ names.map (fun n => ({ Name := n, Typ := f.Typ, Multiplicity := f.Multiplicity } : Field)) := by
  induction names generalizing f fields with
  | nil => simp [appendFields]
  | cons n ns ih => simp [appendFields, ih]

theorem appendRelations_snd (rel : Relation) (relations : List Relation) (names : List String) :
    (appendRelations rel relations names).2 =
      relations ++ names.map (fun n =>
        ({ Target := rel.Target, Label := n, RelType := RelationType.Association,
           Multiplicity := rel.Multiplicity } : Relation)) := by
  induction names generalizing rel relations with
  | nil => simp [appendRelations]
  | cons n ns ih => simp [appendRelations, ih]

theorem parseFieldsBody_primitive (cl : Class) (field : ast.Field ast.Expr) (sig : String)
    (hsig : elementType field.Typ = some sig) (hp : isPrimitive sig = true) :
    parseFieldsBody cl field = some { cl with
      Fields := cl.Fields ++ fieldsFor field.Names sig (multiplicityOf field.Typ) } := by
  cases hn : field.Names with
  | nil => simp [parseFieldsBody, hsig, hp, hn, appendFields, multiplicityOf, fieldsFor]
  | cons n ns =>
    simp [parseFieldsBody, hsig, hp, hn, appendFields_snd, multiplicityOf, fieldsFor]

theorem parseFieldsBody_relation (cl : Class) (field : ast.Field ast.Expr) (sig : String)
    (hsig : elementType field.Typ = some sig) (hp : isPrimitive sig = false) :
    parseFieldsBody cl field = some { cl with
      Relations := cl.Relations ++
        relationsFor field.Names sig (multiplicityOf field.Typ) } := by
  cases hn : field.Names with
  | nil =>
    simp [parseFieldsBody, hsig, hp, hn, appendRelations, multiplicityOf, relationsFor]
  | cons n ns =>
    simp [parseFieldsBody, hsig, hp, hn, appendRelations_snd, multiplicityOf, relationsFor]

theorem parseFieldsBody_panic (cl : Class) (field : ast.Field ast.Expr)
    (hsig : elementType field.Typ = none) : parseFieldsBody cl field = none := by
  simp [parseFieldsBody, hsig]

theorem parseFields_append (cl : Class) (pre rest : List (ast.Field ast.Expr)) :
    parseFields cl (pre ++ rest) = (parseFields cl pre).bind (fun c => parseFields c rest) := by
  induction pre generalizing cl with
  | nil => simp [parseFields]
  | cons f fs ih =>
    simp only [List.cons_append, parseFields]
    cases h : parseFieldsBody cl f with
    | none => simp
    | some c => simp [ih]

/-- The walk at one member: once the members before `field` have led to the
class `cl1`, the walk of the whole list continues from the class that the loop
body returns for `field`. -/
theorem parseFields_member (cl cl1 cl2 : Class) (pre post : List (ast.Field ast.Expr))
    (field : ast.Field ast.Expr) (hpre : parseFields cl pre = some cl1)
    (hbody : parseFieldsBody cl1 field = some cl2) :
    parseFields cl (pre ++ field :: post) = parseFields cl2 post := by
  simp [parseFields_append, hpre, parseFields, hbody]

/-! ## Lemmas on signatures -/

theorem containsAny_append (a b chars : String) :
    strings.ContainsAny (a ++ b) chars =
      (strings.ContainsAny a chars || strings.ContainsAny b chars) := by
  simp [strings.ContainsAny, List.any_append]

theorem isPrimitive_of_containsAny (s : String)
    (h : strings.ContainsAny s " [" = true) : isPrimitive s = true := by
  simp [isPrimitive, h]

theorem containsAny_of_not_primitive (s : String) (h : isPrimitive s = false) :
    strings.ContainsAny s " [" = false := by
  unfold isPrimitive at h
  split at h
  · simp at h
  · split at h
    · simp at h
    · simpa using ‹¬ strings.ContainsAny s " [" = true›

theorem elementType_strip : ∀ t : ast.Expr, elementType (strip t) = elementType t
  | .ArrayType _ elt => by simpa [strip, elementType] using elementType_strip elt
  | .StarExpr x => by simpa [strip, elementType] using elementType_strip x
  | .nil => by simp [strip]
  | .Ident _ => by simp [strip]
  | .SelectorExpr _ _ => by simp [strip]
  | .FuncType _ _ => by simp [strip]
  | .MapType _ _ => by simp [strip]
  | .InterfaceType _ => by simp [strip]
  | .StructType _ => by simp [strip]
  | .ChanType _ _ => by simp [strip]
  | .Ellipsis _ => by simp [strip]
  | .BasicLit _ => by simp [strip]
  | .ParenExpr _ => by simp [strip]
  | .BadExpr => by simp [strip]
  | .Other _ => by simp [strip]

theorem elementType_wrap (ws : List Wrapper) (t : ast.Expr) :
    elementType (wrap ws t) = elementType t := by
  induction ws with
  | nil => simp [wrap]
  | cons w ws ih => cases w <;> simpa [wrap, elementType] using ih

theorem strip_wrap (ws : List Wrapper) (t : ast.Expr) : strip (wrap ws t) = strip t := by
  induction ws with
  | nil => simp [wrap]
  | cons w ws ih => cases w <;> simpa [wrap, strip] using ih

/-- The signature of a map, function, interface, struct or channel type holds
a space or an opening bracket. -/
theorem containsAny_of_composite (t : ast.Expr) (sig : String)
    (hc : isComposite t = true) (hsig : elementType t = some sig) :
    strings.ContainsAny sig " [" = true := by
  cases t <;> simp [isComposite] at hc
  case FuncType p r =>
    simp only [elementType, Option.bind_eq_bind, Option.bind_eq_some, Option.pure_def,
      Option.some.injEq] at hsig
    obtain ⟨a, -, b, -, rfl⟩ := hsig
    rw [String.append_assoc, containsAny_append]
    simp [strings.ContainsAny]
  case MapType k v =>
    simp only [elementType, Option.bind_eq_bind, Option.bind_eq_some, Option.pure_def,
      Option.some.injEq] at hsig
    obtain ⟨a, -, b, -, rfl⟩ := hsig
    rw [String.append_assoc, String.append_assoc, containsAny_append]
    simp [strings.ContainsAny]
  case InterfaceType m =>
    simp only [elementType, Option.bind_eq_bind, Option.bind_eq_some, Option.pure_def,
      Option.some.injEq] at hsig
    obtain ⟨a, -, rfl⟩ := hsig
    rw [String.append_assoc, containsAny_append]
    simp [strings.ContainsAny]
  case StructType m =>
    simp only [elementType, Option.bind_eq_bind, Option.bind_eq_some, Option.pure_def,
      Option.some.injEq] at hsig
    obtain ⟨a, -, rfl⟩ := hsig
    rw [String.append_assoc, containsAny_append]
    simp [strings.ContainsAny]
  case ChanType d v =>
    simp only [elementType] at hsig
    split at hsig
    · simp only [Option.bind_eq_bind, Option.bind_eq_some, Option.pure_def,
        Option.some.injEq] at hsig
      obtain ⟨a, -, rfl⟩ := hsig
      rw [containsAny_append]
      simp [strings.ContainsAny]
    · split at hsig
      · simp only [Option.bind_eq_bind, Option.bind_eq_some, Option.pure_def,
          Option.some.injEq] at hsig
        obtain ⟨a, -, rfl⟩ := hsig
        rw [containsAny_append]
        simp [strings.ContainsAny]
      · simp only [Option.bind_eq_bind, Option.bind_eq_some, Option.pure_def,
          Option.some.injEq] at hsig
        obtain ⟨a, -, rfl⟩ := hsig
        rw [containsAny_append]
        simp [strings.ContainsAny]

/-- A member whose signature is not primitive has, under its array and pointer
wrappers, a nil type, an identifier or a selector. -/
theorem strip_of_not_primitive : ∀ (t : ast.Expr) (sig : String),
    elementType t = some sig → isPrimitive sig = false →
    strip t = ast.Expr.nil ∨ isName (strip t) = true
  | .ArrayType _ elt, sig, hsig, hp => by
      simpa [strip] using strip_of_not_primitive elt sig (by simpa [elementType] using hsig) hp
  | .StarExpr x, sig, hsig, hp => by
      simpa [strip] using strip_of_not_primitive x sig (by simpa [elementType] using hsig) hp
  | .nil, _, _, _ => by simp [strip]
  | .Ident _, _, _, _ => by simp [strip, isName]
  | .SelectorExpr _ _, _, _, _ => by simp [strip, isName]
  | .FuncType p r, sig, hsig, hp => by
      have h := containsAny_of_composite (.FuncType p r) sig rfl hsig
      rw [containsAny_of_not_primitive sig hp] at h
      exact absurd h (by decide)
  | .MapType k v, sig, hsig, hp => by
      have h := containsAny_of_composite (.MapType k v) sig rfl hsig
      rw [containsAny_of_not_primitive sig hp] at h
      exact absurd h (by decide)
  | .InterfaceType m, sig, hsig, hp => by
      have h := containsAny_of_composite (.InterfaceType m) sig rfl hsig
      rw [containsAny_of_not_primitive sig hp] at h
      exact absurd h (by decide)
  | .StructType m, sig, hsig, hp => by
      have h := containsAny_of_composite (.StructType m) sig rfl hsig
      rw [containsAny_of_not_primitive sig hp] at h
      exact absurd h (by decide)
  | .ChanType d v, sig, hsig, hp => by
      have h := containsAny_of_composite (.ChanType d v) sig rfl hsig
      rw [containsAny_of_not_primitive sig hp] at h
      exact absurd h (by decide)
  | .Ellipsis _, _, hsig, _ => by simp [elementType] at hsig
  | .BasicLit _, _, hsig, _ => by simp [elementType] at hsig
  | .ParenExpr _, _, hsig, _ => by simp [elementType] at hsig
  | .BadExpr, _, hsig, _ => by simp [elementType] at hsig
  | .Other _, _, hsig, _ => by simp [elementType] at hsig

theorem join_cons (s : String) (ss : List String) :
    String.join (s :: ss) = s ++ String.join ss := by
  apply String.ext
  simp [String.data_join]

/-- The loop over a field list writes one signature per member, in order. -/
theorem elementTypeList_join (list : List (ast.Field ast.Expr)) (sigs : List String)
    (h : List.Forall₂ (fun (f : ast.Field ast.Expr) (s : String) => elementType f.Typ = some s)
      list sigs) :
    elementTypeList list = some (String.join sigs) := by
  induction h with
  | nil => simp [elementTypeList, String.join]
  | cons hd _ ih => simp [elementTypeList, hd, ih, join_cons]

theorem not_scalar_of_not_primitive (s : String) (h : isPrimitive s = false) :
    s ∉ ["bool", "int", "uint", "byte", "float", "uint8", "int8", "uint16", "int16",
      "uint32", "int32", "uint64", "int64", "string"] := by
  intro hmem
  simp [isPrimitive, hmem] at h

/-- What a walk of `parseFields` adds to a class: the new Relations each come
from a member whose signature is their Target and is not primitive, the new
Fields each have a primitive Type. -/
theorem parseFields_emitted (fields : List (ast.Field ast.Expr)) :
    ∀ (cl cl2 : Class), parseFields cl fields = some cl2 →
    ∃ (fs : List Field) (rs : List Relation),
      cl2 = { cl with Fields := cl.Fields ++ fs, Relations := cl.Relations ++ rs } ∧
      (∀ r ∈ rs, ∃ field ∈ fields,
        elementType field.Typ = some r.Target ∧ isPrimitive r.Target = false) ∧
      (∀ f ∈ fs, isPrimitive f.Typ = true) := by
  induction fields with
  | nil =>
    intro cl cl2 h
    simp only [parseFields, Option.some.injEq] at h
    subst h
    exact ⟨[], [], by simp, by simp, by simp⟩
  | cons field rest ih =>
    intro cl cl2 h
    simp only [parseFields, Option.bind_eq_bind, Option.bind_eq_some] at h
    obtain ⟨cl1, hbody, hrest⟩ := h
    obtain ⟨fs, rs, hcl2, hrs, hfs⟩ := ih cl1 cl2 hrest
    cases hsig : elementType field.Typ with
    | none => rw [parseFieldsBody_panic cl field hsig] at hbody; cases hbody
    | some sig =>
      cases hp : isPrimitive sig with
      | true =>
        rw [parseFieldsBody_primitive cl field sig hsig hp] at hbody
        cases hbody
        refine ⟨fieldsFor field.Names sig (multiplicityOf field.Typ) ++ fs, rs, ?_, ?_, ?_⟩
        · simp [hcl2]
        · intro r hr
          obtain ⟨g, hg, h1, h2⟩ := hrs r hr
          exact ⟨g, List.mem_cons_of_mem _ hg, h1, h2⟩
        · intro f hf
          rcases List.mem_append.1 hf with hf | hf
          · rw [(fieldsFor_mem _ _ _ f hf).1]
            exact hp
          · exact hfs f hf
      | false =>
        rw [parseFieldsBody_relation cl field sig hsig hp] at hbody
        cases hbody
        refine ⟨fs, relationsFor field.Names sig (multiplicityOf field.Typ) ++ rs, ?_, ?_, ?_⟩
        · simp [hcl2]
        · intro r hr
          rcases List.mem_append.1 hr with hr | hr
          · refine ⟨field, List.mem_cons_self _ _, ?_, ?_⟩
            · rw [(relationsFor_mem _ _ _ r hr).1]
              exact hsig
            · rw [(relationsFor_mem _ _ _ r hr).1]
              exact hp
          · obtain ⟨g, hg, h1, h2⟩ := hrs r hr
            exact ⟨g, List.mem_cons_of_mem _ hg, h1, h2⟩
        · exact hfs

/-! ## Lemmas on files and packages -/

theorem classesOf_append (a b : List (String × ast.FieldList)) :
    classesOf (a ++ b) =
      (classesOf a).bind (fun x => (classesOf b).bind (fun y => some (x ++ y))) := by
  induction a with
  | nil => cases h : classesOf b <;> simp [classesOf, h]
  | cons s rest ih =>
    rw [List.cons_append, classesOf, ih, classesOf]
    cases classOf s <;> cases classesOf rest <;> cases classesOf b <;> simp

theorem parseFileSpecs_eq (specs : List ast.Spec) : ∀ p : Package,
    parseFileSpecs p specs =
      (classesOf (specs.filterMap (fun spec =>
        match spec with
        | .TypeSpec name (.StructType fields) => some (name, fields)
        | _ => none))).bind (fun cls => some { p with Classes := p.Classes ++ cls }) := by
  induction specs with
  | nil => intro p; simp [parseFileSpecs, classesOf]
  | cons spec rest ih =>
    intro p
    cases spec with
    | ImportSpec path => simp [parseFileSpecs, ih]
    | ValueSpec names typ => simp [parseFileSpecs, ih]
    | TypeSpec name typ =>
      cases typ <;> try (simp [parseFileSpecs, ih]; done)
      case StructType fields =>
        cases fields with
        | none => simp [parseFileSpecs, classesOf, classOf]
        | some list =>
          simp only [parseFileSpecs, List.filterMap_cons, classesOf, classOf]
          cases parseFields { Name := name, Fields := [], Relations := [] } list with
          | none => simp
          | some cl =>
            simp only [Option.bind_eq_bind, Option.some_bind, ih]
            cases classesOf (rest.filterMap _) <;> simp

theorem parseFileDecls_eq (decls : List ast.Decl) : ∀ p : Package,
    parseFileDecls p decls =
      (classesOf (structSpecs ⟨decls⟩)).bind
        (fun cls => some { p with Classes := p.Classes ++ cls }) := by
  induction decls with
  | nil => intro p; simp [parseFileDecls, structSpecs, classesOf]
  | cons decl rest ih =>
    intro p
    cases decl with
    | BadDecl => simpa [parseFileDecls, structSpecs] using ih p
    | FuncDecl name typ body => simpa [parseFileDecls, structSpecs] using ih p
    | GenDecl tok specs =>
      have hrest := fun q => ih q
      simp only [structSpecs] at hrest
      simp only [parseFileDecls, structSpecs, List.flatMap_cons, classesOf_append,
        parseFileSpecs_eq, Option.bind_eq_bind]
      cases classesOf (specs.filterMap _) with
      | none => simp
      | some a =>
        simp only [Option.some_bind, hrest]
        cases classesOf (rest.flatMap _) <;> simp

/-- What `parseFile` does to a package: it appends the classes of the
top-level struct type specifications of the file, and panics when one of them
does. -/
theorem parseFile_eq (p : Package) (f : ast.File) :
    parseFile p f =
      (classesOf (structSpecs f)).bind
        (fun cls => some { p with Classes := p.Classes ++ cls }) :=
  parseFileDecls_eq f.Decls p

theorem rangeFiles_eq (files : List (String × ast.File)) : ∀ p : Package,
    rangeFiles p files =
      (classesOf ((files.map Prod.snd).flatMap structSpecs)).bind
        (fun cls => some { p with Classes := p.Classes ++ cls }) := by
  induction files with
  | nil => intro p; simp [rangeFiles, classesOf]
  | cons e rest ih =>
    intro p
    obtain ⟨name, file⟩ := e
    simp only [rangeFiles, List.map_cons, List.flatMap_cons, classesOf_append, parseFile_eq,
      Option.bind_eq_bind]
    cases classesOf (structSpecs file) with
    | none => simp
    | some a =>
      simp only [Option.some_bind, ih]
      cases classesOf ((rest.map Prod.snd).flatMap structSpecs) <;> simp

theorem rangePkgs_eq (pkgs : List (String × ast.Package)) : ∀ p : Package,
    rangePkgs p pkgs =
      (classesOf ((visitedFiles pkgs).flatMap structSpecs)).bind
        (fun cls => some { p with Classes := p.Classes ++ cls }) := by
  induction pkgs with
  | nil => intro p; simp [rangePkgs, visitedFiles, classesOf]
  | cons e rest ih =>
    intro p
    obtain ⟨name, pkg⟩ := e
    have hrest := fun q => ih q
    simp only [visitedFiles] at hrest
    simp only [rangePkgs, visitedFiles, List.flatMap_cons, List.flatMap_append, classesOf_append,
      rangeFiles_eq, Option.bind_eq_bind]
    cases classesOf ((pkg.Files.map Prod.snd).flatMap structSpecs) with
    | none => simp
    | some a =>
      simp only [Option.some_bind, hrest]
      cases classesOf ((rest.flatMap _).flatMap structSpecs) <;> simp

theorem parseFields_name (fields : List (ast.Field ast.Expr)) (cl cl2 : Class)
    (h : parseFields cl fields = some cl2) : cl2.Name = cl.Name := by
  obtain ⟨fs, rs, hcl2, -, -⟩ := parseFields_emitted fields cl cl2 h
  rw [hcl2]

theorem classOf_name (s : String × ast.FieldList) (c : Class) (h : classOf s = some c) :
    c.Name = s.1 := by
  obtain ⟨name, fields⟩ := s
  cases fields with
  | none => simp [classOf] at h
  | some list => simpa using parseFields_name list _ c (by simpa [classOf] using h)

theorem classesOf_forall₂ (specs : List (String × ast.FieldList)) :
    ∀ cls : List Class, classesOf specs = some cls →
      List.Forall₂ (fun s c => classOf s = some c) specs cls := by
  induction specs with
  | nil =>
    intro cls h
    simp only [classesOf, Option.some.injEq] at h
    subst h
    exact List.Forall₂.nil
  | cons s rest ih =>
    intro cls h
    simp only [classesOf, Option.bind_eq_bind, Option.bind_eq_some, Option.pure_def,
      Option.some.injEq] at h
    obtain ⟨c, hc, cs, hcs, rfl⟩ := h
    exact List.Forall₂.cons hc (ih cs hcs)

theorem classesOf_none_of_mem (specs : List (String × ast.FieldList))
    (s : String × ast.FieldList) (hs : s ∈ specs) (h : classOf s = none) :
    classesOf specs = none := by
  induction specs with
  | nil => simp at hs
  | cons t rest ih =>
    rcases List.mem_cons.1 hs with rfl | hmem
    · simp [classesOf, h]
    · simp [classesOf, ih hmem]

theorem parseFields_none_of_mem (fields : List (ast.Field ast.Expr))
    (field : ast.Field ast.Expr) (hf : field ∈ fields) (h : elementType field.Typ = none) :
    ∀ cl : Class, parseFields cl fields = none := by
  induction fields with
  | nil => simp at hf
  | cons g rest ih =>
    intro cl
    rcases List.mem_cons.1 hf with rfl | hmem
    · simp [parseFields, parseFieldsBody_panic cl field h]
    · cases hb : parseFieldsBody cl g with
      | none => simp [parseFields, hb]
      | some cl1 => simp [parseFields, hb, ih hmem cl1]

/-- Permuting the struct specifications permutes the classes and keeps
whether there is a panic. -/
theorem classesOf_perm (l1 l2 : List (String × ast.FieldList)) (h : l1.Perm l2) :
    (classesOf l1 = none ↔ classesOf l2 = none) ∧
    ∀ c1 c2, classesOf l1 = some c1 → classesOf l2 = some c2 → c1.Perm c2 := by
  induction h with
  | nil =>
    refine ⟨Iff.rfl, fun c1 c2 h1 h2 => ?_⟩
    rw [h1] at h2
    cases h2
    exact List.Perm.refl _
  | @cons s a b _ ih =>
    obtain ⟨hn, hp⟩ := ih
    cases hs : classOf s with
    | none => simp [classesOf, hs]
    | some c =>
      cases ha : classesOf a with
      | none => simp [classesOf, hs, ha, hn.1 ha]
      | some ca =>
        cases hb : classesOf b with
        | none => exact absurd (hn.2 hb) (by simp [ha])
        | some cb =>
          refine ⟨by simp [classesOf, hs, ha, hb], fun c1 c2 h1 h2 => ?_⟩
          simp only [classesOf, hs, ha, hb, Option.bind_eq_bind, Option.some_bind,
            Option.pure_def, Option.some.injEq] at h1 h2
          subst h1 h2
          exact List.Perm.cons c (hp ca cb ha hb)
  | swap s t l =>
    cases hs : classOf s <;> cases ht : classOf t <;> cases hl : classesOf l <;>
      simp [classesOf, hs, ht, hl]
    exact List.Perm.swap _ _ _
  | @trans a b c _ _ ih1 ih2 =>
    refine ⟨ih1.1.trans ih2.1, fun c1 c3 h1 h3 => ?_⟩
    cases hb : classesOf b with
    | none => exact absurd (ih1.1.2 hb) (by simp [h1])
    | some c2 => exact (ih1.2 c1 c2 h1 hb).trans (ih2.2 c2 c3 hb h3)

mutual

theorem elementType_none_iff : ∀ t : ast.Expr,
    elementType t = none ↔ reachesUnknown t = true
  | .nil => by simp [elementType, reachesUnknown]
  | .Ident _ => by simp [elementType, reachesUnknown]
  | .ArrayType _ elt => by
      simpa [elementType, reachesUnknown] using elementType_none_iff elt
  | .StarExpr x => by simpa [elementType, reachesUnknown] using elementType_none_iff x
  | .SelectorExpr x _ => by
      have h := elementType_none_iff x
      cases hx : elementType x <;> simp [elementType, reachesUnknown, hx] at h ⊢ <;> exact h
  | .FuncType params results => by
      have h1 := elementTypeFieldList_none_iff params
      have h2 := elementTypeFieldList_none_iff results
      cases hp : elementTypeFieldList params <;> cases hr : elementTypeFieldList results <;>
        simp [elementType, reachesUnknown, hp, hr] at h1 h2 ⊢ <;> simp [h1, h2]
  | .MapType key value => by
      have h1 := elementType_none_iff key
      have h2 := elementType_none_iff value
      cases hp : elementType key <;> cases hr : elementType value <;>
        simp [elementType, reachesUnknown, hp, hr] at h1 h2 ⊢ <;> simp [h1, h2]
  | .InterfaceType methods => by
      have h := elementTypeFieldList_none_iff methods
      cases hx : elementTypeFieldList methods <;>
        simp [elementType, reachesUnknown, hx] at h ⊢ <;> exact h
  | .StructType fields => by
      have h := elementTypeFieldList_none_iff fields
      cases hx : elementTypeFieldList fields <;>
        simp [elementType, reachesUnknown, hx] at h ⊢ <;> exact h
  | .ChanType dir value => by
      have h := elementType_none_iff value
      cases hx : elementType value with
      | none =>
        simp only [hx, true_iff] at h
        simp [elementType, reachesUnknown, hx, h]
      | some v =>
        have h3 : reachesUnknown value = false := by simpa [hx] using h
        simp only [elementType, reachesUnknown, hx, h3]
        split
        · simp
        · split <;> simp
  | .Ellipsis _ => by simp [elementType, reachesUnknown]
  | .BasicLit _ => by simp [elementType, reachesUnknown]
  | .ParenExpr _ => by simp [elementType, reachesUnknown]
  | .BadExpr => by simp [elementType, reachesUnknown]
  | .Other _ => by simp [elementType, reachesUnknown]

theorem elementTypeFieldList_none_iff : ∀ l : ast.FieldList,
    elementTypeFieldList l = none ↔ reachesUnknownFieldList l = true
  | none => by simp [elementTypeFieldList, reachesUnknownFieldList]
  | some list => by
      simpa [elementTypeFieldList, reachesUnknownFieldList] using elementTypeList_none_iff list

theorem elementTypeList_none_iff : ∀ l : List (ast.Field ast.Expr),
    elementTypeList l = none ↔ reachesUnknownList l = true
  | [] => by simp [elementTypeList, reachesUnknownList]
  | field :: rest => by
      have h1 := elementType_none_iff field.Typ
      have h2 := elementTypeList_none_iff rest
      cases hp : elementType field.Typ <;> cases hr : elementTypeList rest <;>
        simp [elementTypeList, reachesUnknownList, hp, hr] at h1 h2 ⊢ <;> simp [h1, h2]

end

/-- The result of `ParsePackage` once both library calls have succeeded. -/
theorem ParsePackage_ok (Import : String → build.Package × Option String)
    (ParseDir : String → List (String × ast.Package) × Option String)
    (packagePath : String) (buildPkg : build.Package) (pkgs : List (String × ast.Package))
    (hi : Import packagePath = (buildPkg, none)) (hp : ParseDir buildPkg.Dir = (pkgs, none)) :
    ParsePackage Import ParseDir packagePath =
      (classesOf ((visitedFiles pkgs).flatMap structSpecs)).bind
        (fun cls => some (some ⟨packagePath, cls⟩, none)) := by
  simp only [ParsePackage, hi, hp, rangePkgs_eq]
  cases classesOf ((visitedFiles pkgs).flatMap structSpecs) <;> simp

theorem ParsePackage_import_error (Import : String → build.Package × Option String)
    (ParseDir : String → List (String × ast.Package) × Option String)
    (packagePath : String) (buildPkg : build.Package) (err : String)
    (hi : Import packagePath = (buildPkg, some err)) :
    ParsePackage Import ParseDir packagePath = some (none, some err) := by
  simp [ParsePackage, hi]

theorem ParsePackage_parse_error (Import : String → build.Package × Option String)
    (ParseDir : String → List (String × ast.Package) × Option String)
    (packagePath : String) (buildPkg : build.Package) (pkgs : List (String × ast.Package))
    (err : String) (hi : Import packagePath = (buildPkg, none))
    (hp : ParseDir buildPkg.Dir = (pkgs, some err)) :
    ParsePackage Import ParseDir packagePath = some (none, some err) := by
  simp [ParsePackage, hi, hp]

/-- The Relations and Fields of a class that `parseFields` produces from a
class without entries: every Relation's Target is the signature of a member
whose type, after stripping array and pointer wrappers, is an identifier or a
selector (or nil, with Target ""); `isPrimitive` does not hold of the Target,
so it is none of the names that `isPrimitive` lists and holds no space and no
opening bracket; `isPrimitive` holds of every Field's Type. -/
theorem parseFields_relation_targets (name : String) (fields : List (ast.Field ast.Expr))
    (cl2 : Class) (h : parseFields ⟨name, [], []⟩ fields = some cl2) :
    (∀ r ∈ cl2.Relations, ∃ field ∈ fields,
      elementType field.Typ = some r.Target ∧
      (isName (strip field.Typ) = true ∨ (strip field.Typ = ast.Expr.nil ∧ r.Target = "")) ∧
      isPrimitive r.Target = false ∧
      r.Target ∉ ["bool", "int", "uint", "byte", "float", "uint8", "int8", "uint16", "int16",
        "uint32", "int32", "uint64", "int64", "string"] ∧
      strings.ContainsAny r.Target " [" = false) ∧
    (∀ f ∈ cl2.Fields, isPrimitive f.Typ = true) := by
  obtain ⟨fs, rs, hcl2, hrs, hfs⟩ := parseFields_emitted fields _ cl2 h
  subst hcl2
  constructor
  · intro r hr
    obtain ⟨g, hg, h1, h2⟩ := hrs r (by simpa using hr)
    refine ⟨g, hg, h1, ?_, h2, not_scalar_of_not_primitive _ h2,
      containsAny_of_not_primitive _ h2⟩
    rcases strip_of_not_primitive g.Typ r.Target h1 h2 with hnil | hname
    · right
      refine ⟨hnil, ?_⟩
      have h3 := elementType_strip g.Typ
      rw [hnil, h1] at h3
      simpa [elementType] using h3.symm
    · exact Or.inl hname
  · intro f hf
    exact hfs f (by simpa using hf)

/-! ## The claims -/

/-- C1, as stated, fails: the member `a, b int` (two names, one accepted type)
makes `parseFields` emit two Fields, not exactly one Field or one Relation. -/
theorem C1_two_names_two_fields :
    elementType (ast.Expr.Ident "int") = some "int" ∧
    parseFields ⟨"T", [], []⟩ [⟨["a", "b"], ast.Expr.Ident "int"⟩] =
      some ⟨"T", [⟨"a", "int", ""⟩, ⟨"b", "int", ""⟩], []⟩ ∧
    ¬ ∃ cl2 : Class,
        parseFields ⟨"T", [], []⟩ [⟨["a", "b"], ast.Expr.Ident "int"⟩] = some cl2 ∧
        (cl2.Fields.length = 1 ∨ cl2.Relations.length = 1) := by
  have h : parseFields ⟨"T", [], []⟩ [⟨["a", "b"], ast.Expr.Ident "int"⟩] =
      some ⟨"T", [⟨"a", "int", ""⟩, ⟨"b", "int", ""⟩], []⟩ := by decide
  refine ⟨by decide, h, ?_⟩
  rintro ⟨cl2, h2, hlen⟩
  rw [h] at h2
  cases h2
  simp at hlen

/-- C1, amended: for every member whose type `elementType` accepts, at any
place of the member list, `parseFields` appends entries of one kind only and
at least one: Fields when `isPrimitive` holds of the signature (Relations
untouched), Relations otherwise (Fields untouched); their number is 1 for a
member with no or one name and the number of names otherwise. -/
theorem C1_member_one_kind (cl cl1 : Class) (pre : List (ast.Field ast.Expr))
    (field : ast.Field ast.Expr) (sig : String)
    (hpre : parseFields cl pre = some cl1) (hsig : elementType field.Typ = some sig) :
    (isPrimitive sig = true →
      ∃ fs : List Field, fs.length = max 1 field.Names.length ∧
        ∀ post, parseFields cl (pre ++ field :: post) =
          parseFields { cl1 with Fields := cl1.Fields ++ fs } post) ∧
    (isPrimitive sig = false →
      ∃ rs : List Relation, rs.length = max 1 field.Names.length ∧
        ∀ post, parseFields cl (pre ++ field :: post) =
          parseFields { cl1 with Relations := cl1.Relations ++ rs } post) := by
  constructor
  · intro hp
    exact ⟨_, fieldsFor_length _ _ _, fun post => parseFields_member cl cl1 _ pre post field
      hpre (parseFieldsBody_primitive cl1 field sig hsig hp)⟩
  · intro hp
    exact ⟨_, relationsFor_length _ _ _, fun post => parseFields_member cl cl1 _ pre post
      field hpre (parseFieldsBody_relation cl1 field sig hsig hp)⟩

/-- C1, amended, at the struct `T` with the members `a, b int` and `c Foo`: the
second member adds one Relation and no Field. -/
theorem C1_member_one_kind_witness :
    ∃ rs : List Relation, rs.length = 1 ∧
      parseFields ⟨"T", [], []⟩
          [⟨["a", "b"], ast.Expr.Ident "int"⟩, ⟨["c"], ast.Expr.Ident "Foo"⟩] =
        some ⟨"T", [⟨"a", "int", ""⟩, ⟨"b", "int", ""⟩], rs⟩ := by
  obtain ⟨rs, hlen, h⟩ := (C1_member_one_kind ⟨"T", [], []⟩
    ⟨"T", [⟨"a", "int", ""⟩, ⟨"b", "int", ""⟩], []⟩ [⟨["a", "b"], ast.Expr.Ident "int"⟩]
    ⟨["c"], ast.Expr.Ident "Foo"⟩ "Foo" (by decide) (by decide)).2 (by decide)
  exact ⟨rs, by simpa using hlen, by simpa [parseFields] using h []⟩

/-- C2 fails on the code for the floating-point names: `isPrimitive` holds of
neither `float32` nor `float64`, so a member `X float64` (or `X float32`) gets
a Relation with kind Association and no Field. -/
theorem C2_float_member_is_relation :
    isPrimitive "float32" = false ∧ isPrimitive "float64" = false ∧
    parseFields ⟨"T", [], []⟩ [⟨["X"], ast.Expr.Ident "float64"⟩] =
      some ⟨"T", [], [⟨"float64", "X", RelationType.Association, ""⟩]⟩ ∧
    parseFields ⟨"T", [], []⟩ [⟨["X"], ast.Expr.Ident "float32"⟩] =
      some ⟨"T", [], [⟨"float32", "X", RelationType.Association, ""⟩]⟩ := by
  decide

/-- C3: the relation kind depends on the names only. For every member whose
signature is not primitive, whatever its type: with no name `parseFields`
appends exactly one Relation, of kind Composition and with empty Label; with at
least one name it appends one Relation per name, each of kind Association. -/
theorem C3_relation_kind (cl cl1 : Class) (pre : List (ast.Field ast.Expr))
    (field : ast.Field ast.Expr) (sig : String)
    (hpre : parseFields cl pre = some cl1) (hsig : elementType field.Typ = some sig)
    (hp : isPrimitive sig = false) :
    (field.Names = [] →
      ∀ post, parseFields cl (pre ++ field :: post) =
        parseFields { cl1 with Relations := cl1.Relations ++
          [⟨sig, "", RelationType.Composition, multiplicityOf field.Typ⟩] } post) ∧
    (field.Names ≠ [] →
      ∃ rs : List Relation, rs.length = field.Names.length ∧
        (∀ r ∈ rs, r.RelType = RelationType.Association) ∧
        ∀ post, parseFields cl (pre ++ field :: post) =
          parseFields { cl1 with Relations := cl1.Relations ++ rs } post) := by
  have hb := parseFieldsBody_relation cl1 field sig hsig hp
  constructor
  · intro hn
    rw [relationsFor, if_pos hn] at hb
    exact fun post => parseFields_member cl cl1 _ pre post field hpre hb
  · intro hn
    rw [relationsFor, if_neg hn] at hb
    refine ⟨_, ?_, ?_, fun post => parseFields_member cl cl1 _ pre post field hpre hb⟩
    · simp
    · intro r hr
      simp only [List.mem_map] at hr
      obtain ⟨n, -, rfl⟩ := hr
      rfl

/-- C3 at the embedded member `*pkg.Base` and the named member `x, y []Foo` of
a struct `T`. -/
theorem C3_relation_kind_witness :
    parseFields ⟨"T", [], []⟩
        [⟨[], ast.Expr.StarExpr (ast.Expr.SelectorExpr (ast.Expr.Ident "pkg") "Base")⟩] =
      some ⟨"T", [], [⟨"pkg.Base", "", RelationType.Composition, ""⟩]⟩ ∧
    ∃ rs : List Relation, rs.length = 2 ∧ (∀ r ∈ rs, r.RelType = RelationType.Association) ∧
      parseFields ⟨"T", [], []⟩
          [⟨["x", "y"], ast.Expr.ArrayType ast.Expr.nil (ast.Expr.Ident "Foo")⟩] =
        some ⟨"T", [], rs⟩ := by
  constructor
  · have h := (C3_relation_kind ⟨"T", [], []⟩ ⟨"T", [], []⟩ []
      ⟨[], ast.Expr.StarExpr (ast.Expr.SelectorExpr (ast.Expr.Ident "pkg") "Base")⟩ "pkg.Base"
      (by decide) (by decide) (by decide)).1 rfl []
    simpa [parseFields, multiplicityOf, isArrayType] using h
  · obtain ⟨rs, hlen, hk, h⟩ := (C3_relation_kind ⟨"T", [], []⟩ ⟨"T", [], []⟩ []
      ⟨["x", "y"], ast.Expr.ArrayType ast.Expr.nil (ast.Expr.Ident "Foo")⟩ "Foo"
      (by decide) (by decide) (by decide)).2 (by decide)
    exact ⟨rs, by simpa using hlen, hk, by simpa [parseFields] using h []⟩

/-- C4: for every member that `parseFields` emits entries for, each emitted
Field and Relation has Multiplicity "0..*" exactly when the declared type node
is itself an array type `ArrayType len elt`, and "" otherwise. In particular
the members `a []Foo` and `s []string` get "0..*", a slice of slices gets the
single marker "0..*", and a pointer to a slice, a map with slice values, a
channel of slices and a function type with a slice result get "". -/
theorem C4_multiplicity_outermost :
    (∀ (cl cl1 : Class) (pre : List (ast.Field ast.Expr)) (field : ast.Field ast.Expr)
        (sig : String),
      parseFields cl pre = some cl1 → elementType field.Typ = some sig →
      ∃ (fs : List Field) (rs : List Relation), (fs ≠ [] ∨ rs ≠ []) ∧
        (∀ post, parseFields cl (pre ++ field :: post) =
          parseFields { cl1 with Fields := cl1.Fields ++ fs,
                                 Relations := cl1.Relations ++ rs } post) ∧
        (∀ f ∈ fs,
          (f.Multiplicity = "0..*" ↔ ∃ len elt, field.Typ = ast.Expr.ArrayType len elt) ∧
          ((¬ ∃ len elt, field.Typ = ast.Expr.ArrayType len elt) → f.Multiplicity = "")) ∧
        (∀ r ∈ rs,
          (r.Multiplicity = "0..*" ↔ ∃ len elt, field.Typ = ast.Expr.ArrayType len elt) ∧
          ((¬ ∃ len elt, field.Typ = ast.Expr.ArrayType len elt) → r.Multiplicity = ""))) ∧
    parseFields ⟨"T", [], []⟩
        [⟨["a"], ast.Expr.ArrayType ast.Expr.nil (ast.Expr.Ident "Foo")⟩] =
      some ⟨"T", [], [⟨"Foo", "a", RelationType.Association, "0..*"⟩]⟩ ∧
    parseFields ⟨"T", [], []⟩
        [⟨["s"], ast.Expr.ArrayType (ast.Expr.BasicLit "4") (ast.Expr.Ident "string")⟩] =
      some ⟨"T", [⟨"s", "string", "0..*"⟩], []⟩ ∧
    parseFields ⟨"T", [], []⟩
        [⟨["g"], ast.Expr.ArrayType ast.Expr.nil
          (ast.Expr.ArrayType ast.Expr.nil (ast.Expr.Ident "Foo"))⟩] =
      some ⟨"T", [], [⟨"Foo", "g", RelationType.Association, "0..*"⟩]⟩ ∧
    parseFields ⟨"T", [], []⟩
        [⟨["p"], ast.Expr.StarExpr (ast.Expr.ArrayType ast.Expr.nil (ast.Expr.Ident "Foo"))⟩] =
      some ⟨"T", [], [⟨"Foo", "p", RelationType.Association, ""⟩]⟩ ∧
    parseFields ⟨"T", [], []⟩
        [⟨["m"], ast.Expr.MapType (ast.Expr.Ident "string")
          (ast.Expr.ArrayType ast.Expr.nil (ast.Expr.Ident "Foo"))⟩] =
      some ⟨"T", [⟨"m", "map[string]Foo", ""⟩], []⟩ ∧
    parseFields ⟨"T", [], []⟩
        [⟨["c"], ast.Expr.ChanType (ast.SEND ||| ast.RECV)
          (ast.Expr.ArrayType ast.Expr.nil (ast.Expr.Ident "Foo"))⟩] =
      some ⟨"T", [⟨"c", "chan both Foo", ""⟩], []⟩ ∧
    parseFields ⟨"T", [], []⟩
        [⟨["f"], ast.Expr.FuncType (some [])
          (some [⟨[], ast.Expr.ArrayType ast.Expr.nil (ast.Expr.Ident "Foo")⟩])⟩] =
      some ⟨"T", [⟨"f", "func Foo", ""⟩], []⟩ := by
  refine ⟨?_, by decide, by decide, by decide, by decide, by decide, by decide, by decide⟩
  intro cl cl1 pre field sig hpre hsig
  have hm : (multiplicityOf field.Typ = "0..*" ↔
        ∃ len elt, field.Typ = ast.Expr.ArrayType len elt) ∧
      ((¬ ∃ len elt, field.Typ = ast.Expr.ArrayType len elt) →
        multiplicityOf field.Typ = "") := by
    cases field.Typ <;> simp [multiplicityOf, isArrayType]
  cases hp : isPrimitive sig with
  | true =>
    have hb := parseFieldsBody_primitive cl1 field sig hsig hp
    refine ⟨fieldsFor field.Names sig (multiplicityOf field.Typ), [],
      Or.inl (fieldsFor_ne_nil _ _ _), fun post => ?_, ?_, by simp⟩
    · simpa using parseFields_member cl cl1 _ pre post field hpre hb
    · intro f hf
      rw [(fieldsFor_mem _ _ _ f hf).2]
      exact hm
  | false =>
    have hb := parseFieldsBody_relation cl1 field sig hsig hp
    refine ⟨[], relationsFor field.Names sig (multiplicityOf field.Typ),
      Or.inr (relationsFor_ne_nil _ _ _), fun post => ?_, by simp, ?_⟩
    · simpa using parseFields_member cl cl1 _ pre post field hpre hb
    · intro r hr
      rw [(relationsFor_mem _ _ _ r hr).2]
      exact hm

/-- C4 at the members `items []Foo` and `m *[]Foo` of a struct `T`: the
Relation of the first has Multiplicity "0..*", that of the second "". -/
theorem C4_multiplicity_outermost_witness :
    (∃ (fs : List Field) (rs : List Relation), (fs ≠ [] ∨ rs ≠ []) ∧
      parseFields ⟨"T", [], []⟩
        [⟨["items"], ast.Expr.ArrayType ast.Expr.nil (ast.Expr.Ident "Foo")⟩] =
        some ⟨"T", fs, rs⟩ ∧
      (∀ f ∈ fs, f.Multiplicity = "0..*") ∧ (∀ r ∈ rs, r.Multiplicity = "0..*")) ∧
    (∃ (fs : List Field) (rs : List Relation), (fs ≠ [] ∨ rs ≠ []) ∧
      parseFields ⟨"T", [], []⟩
        [⟨["m"], ast.Expr.StarExpr (ast.Expr.ArrayType ast.Expr.nil (ast.Expr.Ident "Foo"))⟩] =
        some ⟨"T", fs, rs⟩ ∧
      (∀ f ∈ fs, f.Multiplicity = "") ∧ (∀ r ∈ rs, r.Multiplicity = "")) := by
  constructor
  · obtain ⟨fs, rs, hne, h, hf, hr⟩ := C4_multiplicity_outermost.1 ⟨"T", [], []⟩
      ⟨"T", [], []⟩ []
      ⟨["items"], ast.Expr.ArrayType ast.Expr.nil (ast.Expr.Ident "Foo")⟩ "Foo"
      (by decide) (by decide)
    exact ⟨fs, rs, hne, by simpa [parseFields] using h [],
      fun f hm => (hf f hm).1.2 ⟨_, _, rfl⟩, fun r hm => (hr r hm).1.2 ⟨_, _, rfl⟩⟩
  · obtain ⟨fs, rs, hne, h, hf, hr⟩ := C4_multiplicity_outermost.1 ⟨"T", [], []⟩
      ⟨"T", [], []⟩ []
      ⟨["m"], ast.Expr.StarExpr (ast.Expr.ArrayType ast.Expr.nil (ast.Expr.Ident "Foo"))⟩ "Foo"
      (by decide) (by decide)
    exact ⟨fs, rs, hne, by simpa [parseFields] using h [],
      fun f hm => (hf f hm).2 (by simp), fun r hm => (hr r hm).2 (by simp)⟩

/-- C5: `elementType` gives a type under any nesting of array and pointer
wrappers (any order, depth and array length) the signature of the type itself;
hence a member of type slice of pointers to `T`, for an identifier `T` that is
not primitive, gets Relations only, each with Target `T`. -/
theorem C5_wrappers_erased :
    (∀ (ws : List Wrapper) (t : ast.Expr), elementType (wrap ws t) = elementType t) ∧
    (∀ (cl cl1 : Class) (pre : List (ast.Field ast.Expr)) (names : List String)
        (len : ast.Expr) (T : String),
      parseFields cl pre = some cl1 → isPrimitive T = false →
      ∃ rs : List Relation, rs ≠ [] ∧ (∀ r ∈ rs, r.Target = T) ∧
        ∀ post, parseFields cl (pre ++
            ⟨names, ast.Expr.ArrayType len (ast.Expr.StarExpr (ast.Expr.Ident T))⟩ :: post) =
          parseFields { cl1 with Relations := cl1.Relations ++ rs } post) := by
  refine ⟨elementType_wrap, ?_⟩
  intro cl cl1 pre names len T hpre hp
  have hb := parseFieldsBody_relation cl1
    ⟨names, ast.Expr.ArrayType len (ast.Expr.StarExpr (ast.Expr.Ident T))⟩ T
    (by simp [elementType]) hp
  exact ⟨_, relationsFor_ne_nil _ _ _, fun r hr => (relationsFor_mem _ _ _ r hr).1,
    fun post => parseFields_member cl cl1 _ pre post _ hpre hb⟩

/-- C5 at the member `items []*Foo` of a struct `T`. -/
theorem C5_wrappers_erased_witness :
    ∃ rs : List Relation, rs ≠ [] ∧ (∀ r ∈ rs, r.Target = "Foo") ∧
      parseFields ⟨"T", [], []⟩
        [⟨["items"], ast.Expr.ArrayType ast.Expr.nil
          (ast.Expr.StarExpr (ast.Expr.Ident "Foo"))⟩] = some ⟨"T", [], rs⟩ := by
  obtain ⟨rs, hne, ht, h⟩ := C5_wrappers_erased.2 ⟨"T", [], []⟩ ⟨"T", [], []⟩ []
    ["items"] ast.Expr.nil "Foo" (by decide) (by decide)
  exact ⟨rs, hne, ht, by simpa [parseFields] using h []⟩

/-- C6: a member whose declared type is, under any array and pointer wrappers,
a map, function, inline interface, inline struct or channel type accepted by
`elementType` has a signature that holds a space or an opening bracket, so
`parseFields` adds Fields for it (at least one, each with the signature as
Type) and no Relation; a map from `string` to `int` gives Type
"map[string]int" and a bidirectional channel of `byte` gives "chan both byte". -/
theorem C6_composite_is_field :
    (∀ (cl cl1 : Class) (pre : List (ast.Field ast.Expr)) (field : ast.Field ast.Expr)
        (sig : String),
      parseFields cl pre = some cl1 → isComposite (strip field.Typ) = true →
      elementType field.Typ = some sig →
      strings.ContainsAny sig " [" = true ∧ isPrimitive sig = true ∧
      ∃ fs : List Field, fs ≠ [] ∧ (∀ f ∈ fs, f.Typ = sig) ∧
        ∀ post, parseFields cl (pre ++ field :: post) =
          parseFields { cl1 with Fields := cl1.Fields ++ fs } post) ∧
    parseFields ⟨"T", [], []⟩
        [⟨["m"], ast.Expr.MapType (ast.Expr.Ident "string") (ast.Expr.Ident "int")⟩] =
      some ⟨"T", [⟨"m", "map[string]int", ""⟩], []⟩ ∧
    parseFields ⟨"T", [], []⟩
        [⟨["c"], ast.Expr.ChanType (ast.SEND ||| ast.RECV) (ast.Expr.Ident "byte")⟩] =
      some ⟨"T", [⟨"c", "chan both byte", ""⟩], []⟩ := by
  refine ⟨?_, by decide, by decide⟩
  intro cl cl1 pre field sig hpre hc hsig
  have hca : strings.ContainsAny sig " [" = true :=
    containsAny_of_composite (strip field.Typ) sig hc (by rw [elementType_strip]; exact hsig)
  have hp := isPrimitive_of_containsAny sig hca
  exact ⟨hca, hp, _, fieldsFor_ne_nil _ _ _, fun f hf => (fieldsFor_mem _ _ _ f hf).1,
    fun post => parseFields_member cl cl1 _ pre post field hpre
      (parseFieldsBody_primitive cl1 field sig hsig hp)⟩

/-- C6 at the member `hs []func(int) string` of a struct `T`. -/
theorem C6_composite_is_field_witness :
    ∃ fs : List Field, fs ≠ [] ∧ (∀ f ∈ fs, f.Typ = "func intstring") ∧
      parseFields ⟨"T", [], []⟩
        [⟨["hs"], ast.Expr.ArrayType ast.Expr.nil
          (ast.Expr.FuncType (some [⟨[], ast.Expr.Ident "int"⟩])
            (some [⟨[], ast.Expr.Ident "string"⟩]))⟩] = some ⟨"T", fs, []⟩ := by
  obtain ⟨-, -, fs, hne, ht, h⟩ := C6_composite_is_field.1 ⟨"T", [], []⟩ ⟨"T", [], []⟩ []
    ⟨["hs"], ast.Expr.ArrayType ast.Expr.nil
      (ast.Expr.FuncType (some [⟨[], ast.Expr.Ident "int"⟩])
        (some [⟨[], ast.Expr.Ident "string"⟩]))⟩ "func intstring"
    (by decide) (by decide) (by decide)
  exact ⟨fs, hne, ht, by simpa [parseFields] using h []⟩

/-- C7: `elementType` follows the signature grammar shape by shape: nil gives
""; an identifier its name; a selector the signature of `X`, a dot and `Sel`; a
field list the signatures of its members' types (one per member) joined with
no separator, and an absent list ""; a function "func ", the parameter list
and the result list; a map "map[", key, "]", value; an interface and a struct
their braces around the member list; a channel "chan out ", "chan in " or
"chan both " (send-only, receive-only, bidirectional or any other direction
value) before the element signature. -/
theorem C7_signature_grammar :
    elementType ast.Expr.nil = some "" ∧
    (∀ name, elementType (ast.Expr.Ident name) = some name) ∧
    (∀ x sel s, elementType x = some s →
      elementType (ast.Expr.SelectorExpr x sel) = some (s ++ "." ++ sel)) ∧
    elementTypeFieldList none = some "" ∧
    (∀ (list : List (ast.Field ast.Expr)) (sigs : List String),
      List.Forall₂ (fun (f : ast.Field ast.Expr) (s : String) => elementType f.Typ = some s)
        list sigs →
      elementTypeFieldList (some list) = some (String.join sigs)) ∧
    (∀ params results p r, elementTypeFieldList params = some p →
      elementTypeFieldList results = some r →
      elementType (ast.Expr.FuncType params results) = some ("func " ++ p ++ r)) ∧
    (∀ key value k v, elementType key = some k → elementType value = some v →
      elementType (ast.Expr.MapType key value) = some ("map[" ++ k ++ "]" ++ v)) ∧
    (∀ methods m, elementTypeFieldList methods = some m →
      elementType (ast.Expr.InterfaceType methods) = some ("interface \x7b" ++ m ++ "\x7d")) ∧
    (∀ fields f, elementTypeFieldList fields = some f →
      elementType (ast.Expr.StructType fields) = some ("struct \x7b" ++ f ++ "\x7d")) ∧
    (∀ value v, elementType value = some v →
      elementType (ast.Expr.ChanType ast.SEND value) = some ("chan out " ++ v) ∧
      elementType (ast.Expr.ChanType ast.RECV value) = some ("chan in " ++ v) ∧
      elementType (ast.Expr.ChanType (ast.SEND ||| ast.RECV) value) = some ("chan both " ++ v) ∧
      ∀ dir, dir ≠ ast.SEND → dir ≠ ast.RECV →
        elementType (ast.Expr.ChanType dir value) = some ("chan both " ++ v)) := by
  refine ⟨rfl, fun _ => rfl, ?_, rfl, ?_, ?_, ?_, ?_, ?_, ?_⟩
  · intro x sel s hx
    simp [elementType, hx]
  · intro list sigs h
    simpa [elementTypeFieldList] using elementTypeList_join list sigs h
  · intro params results p r hp hr
    simp [elementType, hp, hr]
  · intro key value k v hk hv
    simp [elementType, hk, hv]
  · intro methods m hm
    simp [elementType, hm]
  · intro fields f hf
    simp [elementType, hf]
  · intro value v hv
    refine ⟨?_, ?_, ?_, ?_⟩
    · simp [elementType, hv]
    · simp [elementType, hv, ast.SEND, ast.RECV]
    · simp [elementType, hv, ast.SEND, ast.RECV]
    · intro dir h1 h2
      simp [elementType, hv, h1, h2]

/-- C7 at the type `func(a, b int) (string, error)`: two parameter names of
one member give one signature, and the result list follows directly. -/
theorem C7_signature_grammar_witness :
    elementType (ast.Expr.FuncType (some [⟨["a", "b"], ast.Expr.Ident "int"⟩])
      (some [⟨[], ast.Expr.Ident "string"⟩, ⟨[], ast.Expr.Ident "error"⟩])) =
      some ("func " ++ String.join ["int"] ++ String.join ["string", "error"]) :=
  C7_signature_grammar.2.2.2.2.2.1 _ _ _ _
    (C7_signature_grammar.2.2.2.2.1 _ ["int"] (List.Forall₂.cons rfl List.Forall₂.nil))
    (C7_signature_grammar.2.2.2.2.1 _ ["string", "error"]
      (List.Forall₂.cons rfl (List.Forall₂.cons rfl List.Forall₂.nil)))

/-- C8: for every member whose signature is not primitive and that declares the
names n1..nk (k >= 1), `parseFields` appends exactly the k Relations with
Label n1..nk in this order, each of kind Association with the signature as
Target and the member's Multiplicity, and appends no Field. -/
theorem C8_named_relations (cl cl1 : Class) (pre : List (ast.Field ast.Expr))
    (field : ast.Field ast.Expr) (sig : String)
    (hpre : parseFields cl pre = some cl1) (hsig : elementType field.Typ = some sig)
    (hp : isPrimitive sig = false) (hk : field.Names ≠ []) :
    ∀ post, parseFields cl (pre ++ field :: post) =
      parseFields { cl1 with Relations := cl1.Relations ++ field.Names.map (fun n =>
        (⟨sig, n, RelationType.Association,
          if isArrayType field.Typ then "0..*" else ""⟩ : Relation)) } post := by
  have hb := parseFieldsBody_relation cl1 field sig hsig hp
  rw [relationsFor, if_neg hk] at hb
  exact fun post => parseFields_member cl cl1 _ pre post field hpre hb

/-- C8 at the members `items []Foo` and `x, y Foo` of a struct `T`. -/
theorem C8_named_relations_witness :
    parseFields ⟨"T", [], []⟩
        [⟨["items"], ast.Expr.ArrayType ast.Expr.nil (ast.Expr.Ident "Foo")⟩] =
      some ⟨"T", [], [⟨"Foo", "items", RelationType.Association, "0..*"⟩]⟩ ∧
    parseFields ⟨"T", [], []⟩ [⟨["x", "y"], ast.Expr.Ident "Foo"⟩] =
      some ⟨"T", [], [⟨"Foo", "x", RelationType.Association, ""⟩,
        ⟨"Foo", "y", RelationType.Association, ""⟩]⟩ := by
  constructor
  · have h := C8_named_relations ⟨"T", [], []⟩ ⟨"T", [], []⟩ []
      ⟨["items"], ast.Expr.ArrayType ast.Expr.nil (ast.Expr.Ident "Foo")⟩ "Foo"
      (by decide) (by decide) (by decide) (by decide) []
    simpa [parseFields, isArrayType] using h
  · have h := C8_named_relations ⟨"T", [], []⟩ ⟨"T", [], []⟩ []
      ⟨["x", "y"], ast.Expr.Ident "Foo"⟩ "Foo"
      (by decide) (by decide) (by decide) (by decide) []
    simpa [parseFields, isArrayType] using h

/-- C9: for every member whose signature is primitive, `parseFields` appends no
Relation; with the names n1..nk (k >= 1) it appends exactly the k Fields named
n1..nk in this order, and with no name exactly one Field with empty Name; each
has the signature as Type and the member's Multiplicity. -/
theorem C9_primitive_fields (cl cl1 : Class) (pre : List (ast.Field ast.Expr))
    (field : ast.Field ast.Expr) (sig : String)
    (hpre : parseFields cl pre = some cl1) (hsig : elementType field.Typ = some sig)
    (hp : isPrimitive sig = true) :
    (field.Names ≠ [] →
      ∀ post, parseFields cl (pre ++ field :: post) =
        parseFields { cl1 with Fields := cl1.Fields ++ field.Names.map (fun n =>
          (⟨n, sig, if isArrayType field.Typ then "0..*" else ""⟩ : Field)) } post) ∧
    (field.Names = [] →
      ∀ post, parseFields cl (pre ++ field :: post) =
        parseFields { cl1 with Fields := cl1.Fields ++
          [⟨"", sig, if isArrayType field.Typ then "0..*" else ""⟩] } post) := by
  have hb := parseFieldsBody_primitive cl1 field sig hsig hp
  constructor
  · intro hk
    rw [fieldsFor, if_neg hk] at hb
    exact fun post => parseFields_member cl cl1 _ pre post field hpre hb
  · intro hk
    rw [fieldsFor, if_pos hk] at hb
    exact fun post => parseFields_member cl cl1 _ pre post field hpre hb

/-- C9 at the member `tags []string` and at the embedded member `int` of a
struct `T`. -/
theorem C9_primitive_fields_witness :
    parseFields ⟨"T", [], []⟩
        [⟨["tags"], ast.Expr.ArrayType ast.Expr.nil (ast.Expr.Ident "string")⟩] =
      some ⟨"T", [⟨"tags", "string", "0..*"⟩], []⟩ ∧
    parseFields ⟨"T", [], []⟩ [⟨[], ast.Expr.Ident "int"⟩] =
      some ⟨"T", [⟨"", "int", ""⟩], []⟩ := by
  constructor
  · have h := (C9_primitive_fields ⟨"T", [], []⟩ ⟨"T", [], []⟩ []
      ⟨["tags"], ast.Expr.ArrayType ast.Expr.nil (ast.Expr.Ident "string")⟩ "string"
      (by decide) (by decide) (by decide)).1 (by decide) []
    simpa [parseFields, isArrayType] using h
  · have h := (C9_primitive_fields ⟨"T", [], []⟩ ⟨"T", [], []⟩ []
      ⟨[], ast.Expr.Ident "int"⟩ "int"
      (by decide) (by decide) (by decide)).2 rfl []
    simpa [parseFields, isArrayType] using h

/-- C10 fails on the code for the floating-point names: the member `X float64`
(likewise `X float32`) has a bare identifier as type, `isPrimitive` does not
hold of its signature, and `parseFields` gives it a Relation whose Target
"float64" is one of the scalar type names. -/
theorem C10_float_target_is_scalar_name :
    parseFields ⟨"T", [], []⟩ [⟨["X"], ast.Expr.Ident "float64"⟩] =
      some ⟨"T", [], [⟨"float64", "X", RelationType.Association, ""⟩]⟩ ∧
    parseFields ⟨"T", [], []⟩ [⟨["Y"], ast.Expr.ArrayType ast.Expr.nil
        (ast.Expr.StarExpr (ast.Expr.Ident "float32"))⟩] =
      some ⟨"T", [], [⟨"float32", "Y", RelationType.Association, "0..*"⟩]⟩ ∧
    isName (strip (ast.Expr.Ident "float64")) = true ∧
    isPrimitive "float64" = false ∧ isPrimitive "float32" = false ∧
    "float64" ∈ ["bool", "string", "int", "int8", "int16", "int32", "int64", "uint", "uint8",
      "uint16", "uint32", "uint64", "byte", "float32", "float64"] ∧
    "float32" ∈ ["bool", "string", "int", "int8", "int16", "int32", "int64", "uint", "uint8",
      "uint16", "uint32", "uint64", "byte", "float32", "float64"] := by
  decide

/-- C11: `parseFile` appends to the package the classes of the top-level struct
type specifications of the file and nothing else: one class per such
specification, named after it, in declaration order (declaration by
declaration, spec by spec). Function and bad declarations, import and value
specifications and type specifications whose type is no struct type add
nothing, whatever they hold inside; a struct type inside a member's type or a
function body is no top-level specification and gets no class. -/
theorem C11_parseFile_classes :
    (∀ (p : Package) (f : ast.File),
      parseFile p f = (classesOf (structSpecs f)).bind
        (fun cls => some { p with Classes := p.Classes ++ cls })) ∧
    (∀ (specs : List (String × ast.FieldList)) (cls : List Class),
      classesOf specs = some cls →
      List.Forall₂ (fun s (c : Class) => c.Name = s.1 ∧ classOf s = some c) specs cls) ∧
    (∀ p name typ body rest,
      parseFile p ⟨ast.Decl.FuncDecl name typ body :: rest⟩ = parseFile p ⟨rest⟩) ∧
    (∀ p rest, parseFile p ⟨ast.Decl.BadDecl :: rest⟩ = parseFile p ⟨rest⟩) ∧
    (∀ p tok rest, parseFile p ⟨ast.Decl.GenDecl tok [] :: rest⟩ = parseFile p ⟨rest⟩) ∧
    (∀ p tok path specs rest,
      parseFile p ⟨ast.Decl.GenDecl tok (ast.Spec.ImportSpec path :: specs) :: rest⟩ =
        parseFile p ⟨ast.Decl.GenDecl tok specs :: rest⟩) ∧
    (∀ p tok names typ specs rest,
      parseFile p ⟨ast.Decl.GenDecl tok (ast.Spec.ValueSpec names typ :: specs) :: rest⟩ =
        parseFile p ⟨ast.Decl.GenDecl tok specs :: rest⟩) ∧
    (∀ p tok name typ specs rest, (∀ fields, typ ≠ ast.Expr.StructType fields) →
      parseFile p ⟨ast.Decl.GenDecl tok (ast.Spec.TypeSpec name typ :: specs) :: rest⟩ =
        parseFile p ⟨ast.Decl.GenDecl tok specs :: rest⟩) := by
  refine ⟨parseFile_eq, ?_, ?_, ?_, ?_, ?_, ?_, ?_⟩
  · intro specs cls h
    exact List.Forall₂.imp (fun s c hc => ⟨classOf_name s c hc, hc⟩)
      (classesOf_forall₂ specs cls h)
  · intro p name typ body rest
    simp [parseFile, parseFileDecls]
  · intro p rest
    simp [parseFile, parseFileDecls]
  · intro p tok rest
    simp [parseFile, parseFileDecls, parseFileSpecs]
  · intro p tok path specs rest
    simp [parseFile, parseFileDecls, parseFileSpecs]
  · intro p tok names typ specs rest
    simp [parseFile, parseFileDecls, parseFileSpecs]
  · intro p tok name typ specs rest hns
    cases typ <;> first
      | exact absurd rfl (hns _)
      | simp [parseFile, parseFileDecls, parseFileSpecs]

/-- C11 at the sample file: the classes are `A`, `E` and `B`, in this order;
`I`, `f`, `L`, `v` and the inline struct of `B` give none. -/
theorem C11_parseFile_classes_witness :
    parseFile ⟨"pkg", []⟩ sampleFile =
      some ⟨"pkg", [⟨"A", [⟨"X", "int", ""⟩], []⟩, ⟨"E", [], []⟩,
        ⟨"B", [⟨"in", "struct \x7bint\x7d", ""⟩], []⟩]⟩ ∧
    List.Forall₂ (fun s (c : Class) => c.Name = s.1 ∧ classOf s = some c)
      (structSpecs sampleFile)
      [⟨"A", [⟨"X", "int", ""⟩], []⟩, ⟨"E", [], []⟩,
        ⟨"B", [⟨"in", "struct \x7bint\x7d", ""⟩], []⟩] :=
  ⟨by decide, C11_parseFile_classes.2.1 (structSpecs sampleFile) _ (by decide)⟩

/-- C12: `elementType` panics exactly when its recursion reaches a node of a
shape it has no case for, and returns a string on every other tree. The array
length is not visited, and neither the selected name nor the member names
decide about a panic. When both library calls succeed and a member of a
top-level struct of a visited file has a type on which `elementType` panics,
`ParsePackage` panics and returns no Package. -/
theorem C12_abort_iff_unknown_shape :
    (∀ t : ast.Expr, elementType t = none ↔ reachesUnknown t = true) ∧
    (∀ t : ast.Expr, reachesUnknown t = false → ∃ s, elementType t = some s) ∧
    (∀ len len2 elt,
      elementType (ast.Expr.ArrayType len elt) = elementType (ast.Expr.ArrayType len2 elt)) ∧
    (∀ x sel sel2, elementType (ast.Expr.SelectorExpr x sel) = none ↔
      elementType (ast.Expr.SelectorExpr x sel2) = none) ∧
    (∀ (names names2 : List String) (t : ast.Expr) (rest : List (ast.Field ast.Expr)),
      elementTypeList (⟨names, t⟩ :: rest) = elementTypeList (⟨names2, t⟩ :: rest)) ∧
    (∀ (Import : String → build.Package × Option String)
        (ParseDir : String → List (String × ast.Package) × Option String)
        (packagePath : String) (buildPkg : build.Package)
        (pkgs : List (String × ast.Package)) (file : ast.File) (name : String)
        (fields : List (ast.Field ast.Expr)) (field : ast.Field ast.Expr),
      Import packagePath = (buildPkg, none) → ParseDir buildPkg.Dir = (pkgs, none) →
      file ∈ visitedFiles pkgs → (name, some fields) ∈ structSpecs file →
      field ∈ fields → elementType field.Typ = none →
      ParsePackage Import ParseDir packagePath = none) := by
  refine ⟨elementType_none_iff, ?_, fun _ _ _ => rfl, ?_, fun _ _ _ _ => rfl, ?_⟩
  · intro t h
    cases ht : elementType t with
    | none => rw [(elementType_none_iff t).1 ht] at h; cases h
    | some s => exact ⟨s, rfl⟩
  · intro x sel sel2
    cases hx : elementType x <;> simp [elementType, hx]
  · intro Import ParseDir packagePath buildPkg pkgs file name fields field hi hp hfile hspec
      hfield habort
    have hclass : classOf (name, some fields) = none := by
      simpa [classOf] using parseFields_none_of_mem fields field hfield habort _
    have hall : classesOf ((visitedFiles pkgs).flatMap structSpecs) = none :=
      classesOf_none_of_mem _ _ (List.mem_flatMap.2 ⟨file, hfile, hspec⟩) hclass
    simp [ParsePackage, hi, hp, rangePkgs_eq, hall]

/-- C12 at a package of two files, the second with the struct `T` whose member
`F` has the type `func(args ...int)`. -/
theorem C12_abort_iff_unknown_shape_witness :
    ParsePackage (fun _ => (⟨"dir"⟩, none))
      (fun _ => ([("pkg", ⟨[("a.go", structFile "A"), ("t.go", variadicFile)]⟩)], none))
      "pkg" = none :=
  C12_abort_iff_unknown_shape.2.2.2.2.2 _ _ "pkg" ⟨"dir"⟩
    [("pkg", ⟨[("a.go", structFile "A"), ("t.go", variadicFile)]⟩)] variadicFile "T"
    [⟨["F"], ast.Expr.FuncType
      (some [⟨["args"], ast.Expr.Ellipsis (ast.Expr.Ident "int")⟩]) none⟩]
    ⟨["F"], ast.Expr.FuncType (some [⟨["args"], ast.Expr.Ellipsis (ast.Expr.Ident "int")⟩]) none⟩
    rfl rfl (by simp [visitedFiles]) (by simp [structSpecs, variadicFile])
    (List.mem_singleton.2 rfl) (by decide)

/-- C13 fails on the code: a function type with a variadic parameter, a
parenthesised type and an instantiated generic type (an index expression) are
valid type expressions, and `elementType` panics on each; a struct with the
member `F func(args ...int)` makes `parseFields` and `ParsePackage` panic. -/
theorem C13_valid_types_abort :
    elementType (ast.Expr.FuncType
      (some [⟨["args"], ast.Expr.Ellipsis (ast.Expr.Ident "int")⟩]) none) = none ∧
    elementType (ast.Expr.ParenExpr (ast.Expr.Ident "int")) = none ∧
    elementType (ast.Expr.Other "IndexExpr") = none ∧
    parseFields ⟨"T", [], []⟩ [⟨["F"], ast.Expr.FuncType
      (some [⟨["args"], ast.Expr.Ellipsis (ast.Expr.Ident "int")⟩]) none⟩] = none ∧
    ParsePackage (fun _ => (⟨"dir"⟩, none))
      (fun _ => ([("pkg", ⟨[("t.go", variadicFile)]⟩)], none)) "pkg" = none := by
  decide

/-- C14, as stated, fails: for one package with the files `a.go` (struct `A`)
and `b.go` (struct `B`), a run whose `range` visits `a.go` first and a run
whose `range` visits `b.go` first return Packages with the classes in
different orders. -/
theorem C14_visiting_order_changes_classes :
    ParsePackage (fun _ => (⟨"dir"⟩, none))
      (fun _ => ([("pkg", ⟨[("a.go", structFile "A"), ("b.go", structFile "B")]⟩)], none))
      "pkg" = some (some ⟨"pkg", [⟨"A", [], []⟩, ⟨"B", [], []⟩]⟩, none) ∧
    ParsePackage (fun _ => (⟨"dir"⟩, none))
      (fun _ => ([("pkg", ⟨[("b.go", structFile "B"), ("a.go", structFile "A")]⟩)], none))
      "pkg" = some (some ⟨"pkg", [⟨"B", [], []⟩, ⟨"A", [], []⟩]⟩, none) ∧
    ParsePackage (fun _ => (⟨"dir"⟩, none))
      (fun _ => ([("pkg", ⟨[("a.go", structFile "A"), ("b.go", structFile "B")]⟩)], none))
      "pkg" ≠
    ParsePackage (fun _ => (⟨"dir"⟩, none))
      (fun _ => ([("pkg", ⟨[("b.go", structFile "B"), ("a.go", structFile "A")]⟩)], none))
      "pkg" := by
  decide

/-- C14, amended: two runs of `ParsePackage` on an unchanged input (the
same result of `build.Import`, the same parse error if any, the same files,
visited in possibly different orders) both panic or both return; they return
the same error; and when they return Packages these have the same
QualifiedName and the same classes up to order. When both runs visit the files
in the same order the results are identical. -/
theorem C14_same_up_to_visiting_order (Import : String → build.Package × Option String)
    (ParseDir1 ParseDir2 : String → List (String × ast.Package) × Option String)
    (packagePath : String)
    (herr : ∀ dir, (ParseDir1 dir).2 = (ParseDir2 dir).2)
    (hperm : ∀ dir, (visitedFiles (ParseDir1 dir).1).Perm (visitedFiles (ParseDir2 dir).1)) :
    (ParsePackage Import ParseDir1 packagePath = none ↔
      ParsePackage Import ParseDir2 packagePath = none) ∧
    (∀ e, ParsePackage Import ParseDir1 packagePath = some (none, e) ↔
      ParsePackage Import ParseDir2 packagePath = some (none, e)) ∧
    (∀ p1 e, ParsePackage Import ParseDir1 packagePath = some (some p1, e) →
      ∃ p2, ParsePackage Import ParseDir2 packagePath = some (some p2, e) ∧
        p2.QualifiedName = p1.QualifiedName ∧ p1.Classes.Perm p2.Classes) ∧
    ((∀ dir, visitedFiles (ParseDir1 dir).1 = visitedFiles (ParseDir2 dir).1) →
      ParsePackage Import ParseDir1 packagePath =
        ParsePackage Import ParseDir2 packagePath) := by
  rcases hi : Import packagePath with ⟨buildPkg, ierr⟩
  cases ierr with
  | some err =>
    rw [ParsePackage_import_error Import ParseDir1 packagePath buildPkg err hi,
      ParsePackage_import_error Import ParseDir2 packagePath buildPkg err hi]
    simp
  | none =>
    have he := herr buildPkg.Dir
    have hpm := hperm buildPkg.Dir
    rcases h1 : ParseDir1 buildPkg.Dir with ⟨pkgs1, e1⟩
    rcases h2 : ParseDir2 buildPkg.Dir with ⟨pkgs2, e2⟩
    rw [h1, h2] at he hpm
    simp only at he hpm
    subst he
    cases e1 with
    | some err =>
      rw [ParsePackage_parse_error Import ParseDir1 packagePath buildPkg pkgs1 err hi h1,
        ParsePackage_parse_error Import ParseDir2 packagePath buildPkg pkgs2 err hi h2]
      simp
    | none =>
      rw [ParsePackage_ok Import ParseDir1 packagePath buildPkg pkgs1 hi h1,
        ParsePackage_ok Import ParseDir2 packagePath buildPkg pkgs2 hi h2]
      obtain ⟨hn, hp⟩ := classesOf_perm _ _ (List.Perm.flatMap_right structSpecs hpm)
      refine ⟨?_, ?_, ?_, ?_⟩
      · cases hc1 : classesOf ((visitedFiles pkgs1).flatMap structSpecs) <;>
          cases hc2 : classesOf ((visitedFiles pkgs2).flatMap structSpecs) <;>
          simp [hc1, hc2] at hn ⊢
      · intro e
        cases hc1 : classesOf ((visitedFiles pkgs1).flatMap structSpecs) <;>
          cases hc2 : classesOf ((visitedFiles pkgs2).flatMap structSpecs) <;> simp
      · intro p1 e hr
        cases hc1 : classesOf ((visitedFiles pkgs1).flatMap structSpecs) with
        | none => simp [hc1] at hr
        | some c1 =>
          cases hc2 : classesOf ((visitedFiles pkgs2).flatMap structSpecs) with
          | none => exact absurd (hn.2 hc2) (by simp [hc1])
          | some c2 =>
            simp only [hc1, Option.some_bind, Option.some.injEq, Prod.mk.injEq] at hr
            obtain ⟨rfl, rfl⟩ := hr
            exact ⟨⟨packagePath, c2⟩, by simp, rfl, hp c1 c2 hc1 hc2⟩
      · intro hsame
        have := hsame buildPkg.Dir
        rw [h1, h2] at this
        simp only at this
        rw [this]

/-- C14, amended, at the package with the files `a.go` and `b.go` visited in
the two orders: the second run returns a Package with the same name and the
classes of the first in another order. -/
theorem C14_same_up_to_visiting_order_witness :
    ∃ p2 : Package,
      ParsePackage (fun _ => (⟨"dir"⟩, none))
        (fun _ => ([("pkg", ⟨[("b.go", structFile "B"), ("a.go", structFile "A")]⟩)], none))
        "pkg" = some (some p2, none) ∧
      p2.QualifiedName = "pkg" ∧
      [(⟨"A", [], []⟩ : Class), ⟨"B", [], []⟩].Perm p2.Classes :=
  (C14_same_up_to_visiting_order (fun _ => (⟨"dir"⟩, none))
    (fun _ => ([("pkg", ⟨[("a.go", structFile "A"), ("b.go", structFile "B")]⟩)], none))
    (fun _ => ([("pkg", ⟨[("b.go", structFile "B"), ("a.go", structFile "A")]⟩)], none))
    "pkg" (fun _ => rfl) (fun _ => by
      simpa [visitedFiles] using List.Perm.swap (structFile "B") (structFile "A") [])).2.2.1
    ⟨"pkg", [⟨"A", [], []⟩, ⟨"B", [], []⟩]⟩ none (by decide)

/-- C16: a top-level struct type specification `name` without members, at any
place among the top-level struct specifications of a file, makes `parseFile`
append the class `name` with no Fields and no Relations at that place (when
the specifications before and after it yield the classes `a` and `b`). -/
theorem C16_empty_struct (p : Package) (f : ast.File)
    (pre post : List (String × ast.FieldList)) (name : String) (a b : List Class)
    (hs : structSpecs f = pre ++ (name, some []) :: post)
    (ha : classesOf pre = some a) (hb : classesOf post = some b) :
    parseFile p f =
      some { p with Classes := p.Classes ++ (a ++ ⟨name, [], []⟩ :: b) } := by
  rw [parseFile_eq, hs, classesOf_append, ha]
  simp [classesOf, classOf, parseFields, hb]

/-- C16 at the sample file, whose struct `E` has no members and stands between
`A` and `B`. -/
theorem C16_empty_struct_witness :
    parseFile ⟨"pkg", []⟩ sampleFile =
      some ⟨"pkg", [⟨"A", [⟨"X", "int", ""⟩], []⟩, ⟨"E", [], []⟩,
        ⟨"B", [⟨"in", "struct \x7bint\x7d", ""⟩], []⟩]⟩ :=
  C16_empty_struct ⟨"pkg", []⟩ sampleFile
    [("A", some [⟨["X"], ast.Expr.Ident "int"⟩])]
    [("B", some [⟨["in"], ast.Expr.StructType (some [⟨["Y"], ast.Expr.Ident "int"⟩])⟩])]
    "E" [⟨"A", [⟨"X", "int", ""⟩], []⟩] [⟨"B", [⟨"in", "struct \x7bint\x7d", ""⟩], []⟩]
    (by simp [structSpecs, sampleFile]) (by decide) (by decide)

/-- C17: `parseFile` only appends. After `parseFile(p, f)` the QualifiedName is
the old one and Classes is the old list followed by the classes of `f`, which
are the same for every package; walking the files `fs1 ++ fs2` appends the
classes of `fs1` followed by those of `fs2`; and a Package that `ParsePackage`
returns has the given package path as QualifiedName. -/
theorem C17_parseFile_appends :
    (∀ (p p2 : Package) (f : ast.File), parseFile p f = some p2 →
      p2.QualifiedName = p.QualifiedName ∧
      ∃ cls : List Class, p2.Classes = p.Classes ++ cls ∧
        ∀ q : Package, parseFile q f = some { q with Classes := q.Classes ++ cls }) ∧
    (∀ (p : Package) (fs1 fs2 : List (String × ast.File)) (c1 c2 : List Class),
      rangeFiles ⟨"", []⟩ fs1 = some ⟨"", c1⟩ → rangeFiles ⟨"", []⟩ fs2 = some ⟨"", c2⟩ →
      rangeFiles p (fs1 ++ fs2) = some { p with Classes := p.Classes ++ (c1 ++ c2) }) ∧
    (∀ (Import : String → build.Package × Option String)
        (ParseDir : String → List (String × ast.Package) × Option String)
        (packagePath : String) (p : Package) (e : Option String),
      ParsePackage Import ParseDir packagePath = some (some p, e) →
      p.QualifiedName = packagePath) := by
  refine ⟨?_, ?_, ?_⟩
  · intro p p2 f h
    rw [parseFile_eq] at h
    cases hc : classesOf (structSpecs f) with
    | none => simp [hc] at h
    | some cls =>
      simp only [hc, Option.some_bind, Option.some.injEq] at h
      subst h
      exact ⟨rfl, cls, rfl, fun q => by simp [parseFile_eq, hc]⟩
  · intro p fs1 fs2 c1 c2 h1 h2
    rw [rangeFiles_eq] at h1 h2 ⊢
    rw [List.map_append, List.flatMap_append, classesOf_append]
    cases hc1 : classesOf ((fs1.map Prod.snd).flatMap structSpecs) with
    | none => simp [hc1] at h1
    | some a =>
      cases hc2 : classesOf ((fs2.map Prod.snd).flatMap structSpecs) with
      | none => simp [hc2] at h2
      | some b =>
        simp only [hc1, hc2, Option.some_bind, Option.some.injEq, Package.mk.injEq,
          List.nil_append, true_and] at h1 h2
        subst h1 h2
        simp
  · intro Import ParseDir packagePath p e h
    rcases hi : Import packagePath with ⟨buildPkg, ierr⟩
    cases ierr with
    | some err =>
      rw [ParsePackage_import_error Import ParseDir packagePath buildPkg err hi] at h
      simp at h
    | none =>
      rcases hp : ParseDir buildPkg.Dir with ⟨pkgs, perr⟩
      cases perr with
      | some err =>
        rw [ParsePackage_parse_error Import ParseDir packagePath buildPkg pkgs err hi hp] at h
        simp at h
      | none =>
        rw [ParsePackage_ok Import ParseDir packagePath buildPkg pkgs hi hp] at h
        cases hc : classesOf ((visitedFiles pkgs).flatMap structSpecs) with
        | none => simp [hc] at h
        | some cls =>
          simp only [hc, Option.some_bind, Option.some.injEq, Prod.mk.injEq] at h
          rw [← h.1]

/-- C17 at a package that already holds the class `Old`, for the sample file,
and at the file lists `a.go` and `b.go`. -/
theorem C17_parseFile_appends_witness :
    (∃ cls : List Class,
      [(⟨"Old", [], []⟩ : Class), ⟨"A", [⟨"X", "int", ""⟩], []⟩, ⟨"E", [], []⟩,
        ⟨"B", [⟨"in", "struct \x7bint\x7d", ""⟩], []⟩] = [⟨"Old", [], []⟩] ++ cls ∧
      ∀ q : Package, parseFile q sampleFile = some { q with Classes := q.Classes ++ cls }) ∧
    rangeFiles ⟨"pkg", [⟨"Old", [], []⟩]⟩
        ([("a.go", structFile "A")] ++ [("b.go", structFile "B")]) =
      some ⟨"pkg", [⟨"Old", [], []⟩] ++ ([⟨"A", [], []⟩] ++ [⟨"B", [], []⟩])⟩ :=
  ⟨(C17_parseFile_appends.1 ⟨"pkg", [⟨"Old", [], []⟩]⟩
      ⟨"pkg", [⟨"Old", [], []⟩, ⟨"A", [⟨"X", "int", ""⟩], []⟩, ⟨"E", [], []⟩,
        ⟨"B", [⟨"in", "struct \x7bint\x7d", ""⟩], []⟩]⟩ sampleFile (by decide)).2,
   C17_parseFile_appends.2.1 ⟨"pkg", [⟨"Old", [], []⟩]⟩ [("a.go", structFile "A")]
     [("b.go", structFile "B")] [⟨"A", [], []⟩] [⟨"B", [], []⟩] (by decide) (by decide)⟩

/-- C18: the signature is not injective on composite types. The function types
`func(int) string` and `func() (int, string)` are different and both get
"func intstring"; the parameter lists `a, b int` and `a int` are different and
give the same signature "func int". -/
theorem C18_signature_not_injective :
    elementType (ast.Expr.FuncType (some [⟨[], ast.Expr.Ident "int"⟩])
      (some [⟨[], ast.Expr.Ident "string"⟩])) = some "func intstring" ∧
    elementType (ast.Expr.FuncType (some [])
      (some [⟨[], ast.Expr.Ident "int"⟩, ⟨[], ast.Expr.Ident "string"⟩])) =
      some "func intstring" ∧
    ast.Expr.FuncType (some [⟨[], ast.Expr.Ident "int"⟩])
      (some [⟨[], ast.Expr.Ident "string"⟩]) ≠
    ast.Expr.FuncType (some [])
      (some [⟨[], ast.Expr.Ident "int"⟩, ⟨[], ast.Expr.Ident "string"⟩]) ∧
    elementType (ast.Expr.FuncType (some [⟨["a", "b"], ast.Expr.Ident "int"⟩]) none) =
      some "func int" ∧
    elementType (ast.Expr.FuncType (some [⟨["a"], ast.Expr.Ident "int"⟩]) none) =
      some "func int" ∧
    ast.Expr.FuncType (some [⟨["a", "b"], ast.Expr.Ident "int"⟩]) none ≠
    ast.Expr.FuncType (some [⟨["a"], ast.Expr.Ident "int"⟩]) none := by
  refine ⟨by decide, by decide, by simp, by decide, by decide, by simp⟩

end godoc2puml
